import Mathlib

/-!
Shallow embedding of the gravity-sim N-body core (CelestialBody, OctreeNode,
Simulation) over the real numbers, together with proofs about the force
accumulation, integration, octree construction and traversal code.

Conventions:
* `glm::vec3` is modelled by `Vec3` with real components.
* C++ `float` arithmetic is modelled by real arithmetic.  `glm::normalize`
  of the zero vector is NaN in IEEE float arithmetic; we model that failure
  case by `Option` (`none` = the computation produced NaN).
* C++ object identity (`&other == this`, `body == &target`) is modelled by
  an `id` field on bodies.
-/

namespace GravitySim

open scoped Classical

noncomputable section

/-- 3D vector (glm::vec3) over the reals. -/
@[ext]
structure Vec3 where
  x : ℝ
  y : ℝ
  z : ℝ

instance : Add Vec3 := ⟨fun a b => ⟨a.x + b.x, a.y + b.y, a.z + b.z⟩⟩

instance : Sub Vec3 := ⟨fun a b => ⟨a.x - b.x, a.y - b.y, a.z - b.z⟩⟩

instance : Neg Vec3 := ⟨fun a => ⟨-a.x, -a.y, -a.z⟩⟩

/-- glm::vec3(0.0f). -/
def Vec3.zero : Vec3 := ⟨0, 0, 0⟩

/-- Scalar multiplication `v * c` / `c * v` on glm vectors. -/
def Vec3.smul (c : ℝ) (v : Vec3) : Vec3 := ⟨c * v.x, c * v.y, c * v.z⟩

/-- Componentwise division `v / c` of a glm vector by a scalar. -/
def Vec3.divScalar (v : Vec3) (c : ℝ) : Vec3 := ⟨v.x / c, v.y / c, v.z / c⟩

/-- `glm::length v = sqrt (dot v v)`. -/
def Vec3.length (v : Vec3) : ℝ :=
  Real.sqrt (v.x * v.x + v.y * v.y + v.z * v.z)

/-- `glm::normalize v = v / length v`.  For the zero vector the float
computation divides zero by zero and yields NaN; that case is `none`. -/
def Vec3.normalize (v : Vec3) : Option Vec3 :=
  if v.length = 0 then none else some (Vec3.smul (1 / v.length) v)

@[simp] theorem Vec3.add_def (a b : Vec3) :
    a + b = ⟨a.x + b.x, a.y + b.y, a.z + b.z⟩ := rfl

@[simp] theorem Vec3.sub_def (a b : Vec3) :
    a - b = ⟨a.x - b.x, a.y - b.y, a.z - b.z⟩ := rfl

/-- CelestialBody.  `trajectory` is the `std::deque<glm::vec3>` history and
`id` models the C++ object address, used for the identity checks. -/
structure Body where
  id : Nat
  position : Vec3
  velocity : Vec3
  acceleration : Vec3
  color : Vec3
  mass : ℝ
  radius : ℝ
  isFixed : Bool
  trajectory : List Vec3

/-- `CelestialBody::MAX_TRAJECTORY_POINTS`. -/
def MAX_TRAJECTORY_POINTS : Nat := 500

/-- CelestialBody::applyGravity.  Adds the gravitational contribution of
`other` to `self.acceleration`; returns `none` when `glm::normalize` is
applied to the zero direction vector (exactly coincident positions), which
in float arithmetic produces NaN. -/
def Body.applyGravity (self other : Body) (G : ℝ) : Option Body :=
  if other.id = self.id then some self
  else
    let direction := other.position - self.position
    let distance0 := direction.length
    let distance := if distance0 < 0.1 then 0.1 else distance0
    match direction.normalize with
    | none => none
    | some dirN =>
      let forceMagnitude := G * self.mass * other.mass / (distance * distance)
      some { self with
              acceleration :=
                self.acceleration + Vec3.smul (forceMagnitude / self.mass) dirN }

/-- CelestialBody::update: semi-implicit Euler step; fixed bodies only
reset their acceleration. -/
def Body.update (b : Body) (deltaTime : ℝ) : Body :=
  if b.isFixed then { b with acceleration := Vec3.zero }
  else
    let velocity := b.velocity + Vec3.smul deltaTime b.acceleration
    let position := b.position + Vec3.smul deltaTime velocity +
      Vec3.smul (0.5 * deltaTime * deltaTime) b.acceleration
    { b with velocity := velocity, position := position,
             acceleration := Vec3.zero }

/-- CelestialBody::addTrajectoryPoint: push_back the position, then
pop_front if the deque exceeds MAX_TRAJECTORY_POINTS. -/
def Body.addTrajectoryPoint (b : Body) : Body :=
  let trajectory := b.trajectory ++ [b.position]
  { b with
      trajectory :=
        if MAX_TRAJECTORY_POINTS < trajectory.length then trajectory.tail
        else trajectory }

/-- CelestialBody::clearTrajectory: clear and reseed with the position. -/
def Body.clearTrajectory (b : Body) : Body :=
  { b with trajectory := [b.position] }

/-- `#define BARNES_HUT_THETA 0.5f`. -/
def BARNES_HUT_THETA : ℝ := 0.5

/-- `#define OCTREE_MAX_DEPTH 10`. -/
def OCTREE_MAX_DEPTH : Nat := 10

/-- `#define OCTREE_MIN_SIZE 0.1f`. -/
def OCTREE_MIN_SIZE : ℝ := 0.1

/-- OctreeNode.  In the C++ a node carries eight nullable child pointers
that are either all null (`children = []` here) or all set by `subdivide`
(a `children` list of length 8). -/
inductive OctreeNode : Type where
  | mk (center : Vec3) (size : ℝ) (totalMass : ℝ) (centerOfMass : Vec3)
       (children : List OctreeNode) (body : Option Body)
       (isLeaf : Bool) (depth : Nat)

def OctreeNode.center : OctreeNode → Vec3
  | .mk c _ _ _ _ _ _ _ => c

def OctreeNode.size : OctreeNode → ℝ
  | .mk _ s _ _ _ _ _ _ => s

def OctreeNode.totalMass : OctreeNode → ℝ
  | .mk _ _ m _ _ _ _ _ => m

def OctreeNode.centerOfMass : OctreeNode → Vec3
  | .mk _ _ _ com _ _ _ _ => com

def OctreeNode.children : OctreeNode → List OctreeNode
  | .mk _ _ _ _ cs _ _ _ => cs

def OctreeNode.body : OctreeNode → Option Body
  | .mk _ _ _ _ _ b _ _ => b

def OctreeNode.isLeaf : OctreeNode → Bool
  | .mk _ _ _ _ _ _ l _ => l

def OctreeNode.depth : OctreeNode → Nat
  | .mk _ _ _ _ _ _ _ d => d

@[simp] theorem OctreeNode.center_mk (c : Vec3) (s m : ℝ) (com : Vec3)
    (cs : List OctreeNode) (b : Option Body) (l : Bool) (d : Nat) :
    (OctreeNode.mk c s m com cs b l d).center = c := rfl

@[simp] theorem OctreeNode.size_mk (c : Vec3) (s m : ℝ) (com : Vec3)
    (cs : List OctreeNode) (b : Option Body) (l : Bool) (d : Nat) :
    (OctreeNode.mk c s m com cs b l d).size = s := rfl

@[simp] theorem OctreeNode.totalMass_mk (c : Vec3) (s m : ℝ) (com : Vec3)
    (cs : List OctreeNode) (b : Option Body) (l : Bool) (d : Nat) :
    (OctreeNode.mk c s m com cs b l d).totalMass = m := rfl

@[simp] theorem OctreeNode.centerOfMass_mk (c : Vec3) (s m : ℝ) (com : Vec3)
    (cs : List OctreeNode) (b : Option Body) (l : Bool) (d : Nat) :
    (OctreeNode.mk c s m com cs b l d).centerOfMass = com := rfl

@[simp] theorem OctreeNode.children_mk (c : Vec3) (s m : ℝ) (com : Vec3)
    (cs : List OctreeNode) (b : Option Body) (l : Bool) (d : Nat) :
    (OctreeNode.mk c s m com cs b l d).children = cs := rfl

@[simp] theorem OctreeNode.body_mk (c : Vec3) (s m : ℝ) (com : Vec3)
    (cs : List OctreeNode) (b : Option Body) (l : Bool) (d : Nat) :
    (OctreeNode.mk c s m com cs b l d).body = b := rfl

@[simp] theorem OctreeNode.isLeaf_mk (c : Vec3) (s m : ℝ) (com : Vec3)
    (cs : List OctreeNode) (b : Option Body) (l : Bool) (d : Nat) :
    (OctreeNode.mk c s m com cs b l d).isLeaf = l := rfl

@[simp] theorem OctreeNode.depth_mk (c : Vec3) (s m : ℝ) (com : Vec3)
    (cs : List OctreeNode) (b : Option Body) (l : Bool) (d : Nat) :
    (OctreeNode.mk c s m com cs b l d).depth = d := rfl

/-- The OctreeNode constructor: zero mass, zero center of mass, no body,
leaf, no children. -/
def OctreeNode.new (center : Vec3) (size : ℝ) (depth : Nat) : OctreeNode :=
  .mk center size 0 Vec3.zero [] none true depth

/-- OctreeNode::getOctant: one bit per axis, set when the coordinate is
`>=` the node center (bit 0 ↦ x, bit 1 ↦ y, bit 2 ↦ z). -/
def OctreeNode.getOctant (t : OctreeNode) (position : Vec3) : Nat :=
  (if t.center.x ≤ position.x then 1 else 0) +
  (if t.center.y ≤ position.y then 2 else 0) +
  (if t.center.z ≤ position.z then 4 else 0)

/-- OctreeNode::getOctantCenter: offset each axis by ±quarterSize
according to the corresponding octant bit (`octant & 1`, `octant & 2`,
`octant & 4`, written arithmetically). -/
def OctreeNode.getOctantCenter (t : OctreeNode) (octant : Nat) : Vec3 :=
  let quarterSize := t.size * 0.25
  ⟨t.center.x + (if octant % 2 = 1 then quarterSize else -quarterSize),
   t.center.y + (if octant / 2 % 2 = 1 then quarterSize else -quarterSize),
   t.center.z + (if octant / 4 % 2 = 1 then quarterSize else -quarterSize)⟩

/-- OctreeNode::contains: half-open cube `[center - half, center + half)`
on each axis. -/
def OctreeNode.contains (t : OctreeNode) (position : Vec3) : Prop :=
  let halfSize := t.size * 0.5
  t.center.x - halfSize ≤ position.x ∧ position.x < t.center.x + halfSize ∧
  t.center.y - halfSize ≤ position.y ∧ position.y < t.center.y + halfSize ∧
  t.center.z - halfSize ≤ position.z ∧ position.z < t.center.z + halfSize

/-- OctreeNode::subdivide: materialize the 8 child octants with half the
extent, centered on the octant offsets, one level deeper. -/
def OctreeNode.subdivide (t : OctreeNode) : OctreeNode :=
  .mk t.center t.size t.totalMass t.centerOfMass
    ((List.range 8).map fun i =>
      OctreeNode.new (t.getOctantCenter i) (t.size * 0.5) (t.depth + 1))
    t.body t.isLeaf t.depth

/-- OctreeNode::shouldUseApproximation: distances below the 0.1 floor
refuse the approximation outright; otherwise compare size/distance with
theta. -/
def OctreeNode.shouldUseApproximation (t : OctreeNode) (targetPosition : Vec3)
    (theta : ℝ) : Prop :=
  let distance := (t.centerOfMass - targetPosition).length
  if distance < 0.1 then False else t.size / distance < theta

/-- Replace child `i` (the other fields are untouched). -/
def OctreeNode.setChild : OctreeNode → Nat → OctreeNode → OctreeNode
  | .mk c s m com cs b l d, i, child => .mk c s m com (cs.set i child) b l d

/-- OctreeNode::updateMassProperties: recompute this node's aggregates;
for an internal node sum the positive-mass children (non-null pointers in
the C++) and divide the weighted position sum by the total. -/
def OctreeNode.updateMassProperties (t : OctreeNode) : OctreeNode :=
  if t.isLeaf then
    match t.body with
    | some b =>
      .mk t.center t.size b.mass b.position t.children t.body t.isLeaf t.depth
    | none => t
  else
    let acc := t.children.foldl
      (fun (acc : ℝ × Vec3) c =>
        if 0 < c.totalMass then
          (acc.1 + c.totalMass, acc.2 + Vec3.smul c.totalMass c.centerOfMass)
        else acc)
      (0, Vec3.zero)
    let centerOfMass :=
      if 0 < acc.1 then acc.2.divScalar acc.1 else t.center
    .mk t.center t.size acc.1 centerOfMass t.children t.body t.isLeaf t.depth

/-- OctreeNode::insertBody.  The C++ recursion terminates because the
depth grows on every recursive call and the depth cap forces the
degenerate merge; the `fuel` argument only finances that recursion in
Lean (any `fuel ≥ OCTREE_MAX_DEPTH + 2 - depth` behaves like the C++). -/
def OctreeNode.insertBody : Nat → OctreeNode → Body → OctreeNode
  | 0, t, _ => t
  | fuel + 1, t, cb =>
    if ¬ t.contains cb.position then t
    else if t.totalMass = 0 then
      .mk t.center t.size cb.mass cb.position t.children (some cb) true t.depth
    else
      match t.isLeaf, t.body with
      | true, some existingBody =>
        if OCTREE_MAX_DEPTH ≤ t.depth ∨ t.size < OCTREE_MIN_SIZE then
          let newTotalMass := t.totalMass + cb.mass
          .mk t.center t.size newTotalMass
            ((Vec3.smul t.totalMass t.centerOfMass +
              Vec3.smul cb.mass cb.position).divScalar newTotalMass)
            t.children t.body t.isLeaf t.depth
        else
          let s0 := OctreeNode.subdivide
            (.mk t.center t.size t.totalMass t.centerOfMass t.children none
              false t.depth)
          let eo := s0.getOctant existingBody.position
          let s1 :=
            match s0.children[eo]? with
            | some c => s0.setChild eo (OctreeNode.insertBody fuel c existingBody)
            | none => s0
          let no := s1.getOctant cb.position
          let s2 :=
            match s1.children[no]? with
            | some c => s1.setChild no (OctreeNode.insertBody fuel c cb)
            | none => s1
          s2.updateMassProperties
      | true, none => t.updateMassProperties
      | false, _ =>
        let octant := t.getOctant cb.position
        let s :=
          match t.children[octant]? with
          | some c => t.setChild octant (OctreeNode.insertBody fuel c cb)
          | none => t
        s.updateMassProperties

mutual

/-- OctreeNode::calculateForce (Barnes-Hut traversal).  `none` models a
NaN produced by normalizing a zero direction vector. -/
def OctreeNode.calculateForce : OctreeNode → Body → ℝ → ℝ → Option Body
  | .mk center size totalMass centerOfMass children body isLeaf depth,
    target, G, theta =>
    let t : OctreeNode :=
      .mk center size totalMass centerOfMass [] body isLeaf depth
    if totalMass = 0 then some target
    else if h : isLeaf = true ∧ body.isSome then
      if (body.get h.2).id = target.id then some target
      else target.applyGravity (body.get h.2) G
    else if isLeaf = false then
      if t.shouldUseApproximation target.position theta then
        let direction := centerOfMass - target.position
        let distance0 := direction.length
        let distance := if distance0 < 0.1 then 0.1 else distance0
        match direction.normalize with
        | none => none
        | some dirN =>
          let forceMagnitude :=
            G * target.mass * totalMass / (distance * distance)
          some { target with
                  acceleration := target.acceleration +
                    Vec3.smul (forceMagnitude / target.mass) dirN }
      else OctreeNode.calculateForceChildren children target G theta
    else some target

/-- The `for i in 0..8` loop of calculateForce: fold the traversal over
the (non-null) children in order. -/
def OctreeNode.calculateForceChildren :
    List OctreeNode → Body → ℝ → ℝ → Option Body
  | [], target, _, _ => some target
  | c :: cs, target, G, theta =>
    match OctreeNode.calculateForce c target G theta with
    | none => none
    | some target' => OctreeNode.calculateForceChildren cs target' G theta

end

/-- Modelled from the spec: force traversal for a degenerate leaf "must
treat it as a point mass" — apply the inverse-square law from the node's
aggregate `totalMass` at its `centerOfMass` (same distance floor). -/
def OctreeNode.pointMassForce (t : OctreeNode) (target : Body) (G : ℝ) :
    Option Body :=
  let direction := t.centerOfMass - target.position
  let distance0 := direction.length
  let distance := if distance0 < 0.1 then 0.1 else distance0
  match direction.normalize with
  | none => none
  | some dirN =>
    let forceMagnitude := G * target.mass * t.totalMass / (distance * distance)
    some { target with
            acceleration := target.acceleration +
              Vec3.smul (forceMagnitude / target.mass) dirN }

/-- `std::numeric_limits<float>::max()`. -/
def FLT_MAX : ℝ := 340282346638528859811704183484516925440

/-- Componentwise glm::min. -/
def Vec3.vmin (a b : Vec3) : Vec3 := ⟨min a.x b.x, min a.y b.y, min a.z b.z⟩

/-- Componentwise glm::max. -/
def Vec3.vmax (a b : Vec3) : Vec3 := ⟨max a.x b.x, max a.y b.y, max a.z b.z⟩

/-- Simulation::calculateBounds: componentwise min/max over the body
positions (the padding is subtracted from and added back to `spaceMax`,
exactly as the C++ does), then inflated to a cube of side 100 when the
extent's length is below 100.  Returns `(spaceMin, spaceMax)`. -/
def calculateBounds (bodies : List Body) : Vec3 × Vec3 :=
  if bodies.isEmpty then (⟨-1000, -1000, -1000⟩, ⟨1000, 1000, 1000⟩)
  else
    let spaceMin := bodies.foldl (fun acc b => acc.vmin b.position)
      ⟨FLT_MAX, FLT_MAX, FLT_MAX⟩
    let spaceMax := bodies.foldl (fun acc b => acc.vmax b.position)
      ⟨-FLT_MAX, -FLT_MAX, -FLT_MAX⟩
    let padding := Vec3.smul 0.2 (spaceMax - spaceMin)
    let spaceMax := spaceMax - padding
    let spaceMax := spaceMax + padding
    let size := spaceMax - spaceMin
    if size.length < 100 then
      let center := Vec3.smul 0.5 (spaceMin + spaceMax)
      (center - ⟨50, 50, 50⟩, center + ⟨50, 50, 50⟩)
    else (spaceMin, spaceMax)

/-- Fuel with which the model calls insertBody; ≥ OCTREE_MAX_DEPTH + 2,
so recursion never runs out on a well-formed tree (see the insert
lemmas). -/
def INSERT_FUEL : Nat := OCTREE_MAX_DEPTH + 2

/-- The fresh root node Simulation::buildOctree constructs from the
computed bounds. -/
def buildOctreeRoot (bodies : List Body) : OctreeNode :=
  let bounds := calculateBounds bodies
  let center := Vec3.smul 0.5 (bounds.1 + bounds.2)
  let size := (bounds.2 - bounds.1).length
  OctreeNode.new center size 0

/-- Simulation::buildOctree: fresh root over the computed bounds, insert
every body, recompute the root's aggregates. -/
def buildOctree (bodies : List Body) : OctreeNode :=
  (bodies.foldl (fun t b => OctreeNode.insertBody INSERT_FUEL t b)
    (buildOctreeRoot bodies)).updateMassProperties

/-- Simulation::updateGravityBarnesHut: rebuild the octree, then for each
non-fixed body zero the acceleration and run the traversal; fixed bodies
are skipped entirely. -/
def updateGravityBarnesHut (G : ℝ) (bodies : List Body) :
    Option (List Body) :=
  let root := buildOctree bodies
  bodies.mapM fun b =>
    if b.isFixed then some b
    else root.calculateForce { b with acceleration := Vec3.zero } G
      BARNES_HUT_THETA

/-- Simulation::updateGravityDirect: for every index `i`, zero the
acceleration when the body is not fixed, then accumulate gravity from
every other index `j` of the live body vector. -/
def updateGravityDirect (G : ℝ) (bodies : List Body) :
    Option (List Body) :=
  (List.range bodies.length).foldlM
    (fun (bs : List Body) i =>
      match bs[i]? with
      | none => some bs
      | some bi =>
        let bi0 := if bi.isFixed then bi
                   else { bi with acceleration := Vec3.zero }
        ((List.range bs.length).foldlM
            (fun (b : Body) j =>
              if i = j then some b
              else
                match bs[j]? with
                | none => some b
                | some bj => b.applyGravity bj G)
            bi0).map
          fun b' => bs.set i b')
    bodies

/-- The Simulation state the step driver reads and writes. -/
structure SimState where
  bodies : List Body
  G : ℝ
  paused : Bool
  timeScale : ℝ
  useBarnesHut : Bool
  trajectoryUpdateCounter : Nat

/-- Simulation::update: skip when paused; scale the frame time; run the
selected gravity mode; integrate every body; append a trajectory sample
for every non-fixed body (the counter throttle fires every tick since the
threshold is 1). -/
def SimState.update (s : SimState) (deltaTime : ℝ) : Option SimState :=
  if s.paused then some s
  else
    let dt := deltaTime * s.timeScale
    (if s.useBarnesHut then updateGravityBarnesHut s.G s.bodies
     else updateGravityDirect s.G s.bodies).map fun bodies =>
      let bodies := bodies.map fun b => b.update dt
      let counter := s.trajectoryUpdateCounter + 1
      if 1 ≤ counter then
        { s with
            bodies := bodies.map fun b =>
              if b.isFixed then b else b.addTrajectoryPoint
            trajectoryUpdateCounter := 0 }
      else { s with bodies := bodies, trajectoryUpdateCounter := counter }

/-- `n` consecutive simulation ticks with the same frame time. -/
def SimState.iterate : Nat → SimState → ℝ → Option SimState
  | 0, s, _ => some s
  | n + 1, s, deltaTime =>
    match s.update deltaTime with
    | none => none
    | some s' => SimState.iterate n s' deltaTime

/-! Basic vector lemmas. -/

theorem Vec3.length_nonneg (v : Vec3) : 0 ≤ v.length :=
  Real.sqrt_nonneg _

theorem Vec3.length_smul (c : ℝ) (v : Vec3) :
    (Vec3.smul c v).length = |c| * v.length := by
  unfold Vec3.length Vec3.smul
  rw [show c * v.x * (c * v.x) + c * v.y * (c * v.y) + c * v.z * (c * v.z) =
        c ^ 2 * (v.x * v.x + v.y * v.y + v.z * v.z) by ring,
      Real.sqrt_mul (sq_nonneg c), Real.sqrt_sq_eq_abs]

theorem Vec3.length_axis (d : ℝ) : (⟨d, 0, 0⟩ : Vec3).length = |d| := by
  unfold Vec3.length
  rw [show d * d + 0 * 0 + 0 * 0 = d ^ 2 by ring, Real.sqrt_sq_eq_abs]

/-- Unfolded form of applyGravity away from the identity check, the
distance floor and the coincidence singularity. -/
theorem Body.applyGravity_eval (a b : Body) (G : ℝ) (hid : ¬ b.id = a.id)
    (hfloor : ¬ (b.position - a.position).length < 0.1) :
    a.applyGravity b G = some { a with
      acceleration := a.acceleration +
        Vec3.smul
          ((G * a.mass * b.mass /
              ((b.position - a.position).length *
               (b.position - a.position).length)) / a.mass)
          (Vec3.smul (1 / (b.position - a.position).length)
            (b.position - a.position)) } := by
  have hlen : (b.position - a.position).length ≠ 0 := by
    intro h0
    rw [h0] at hfloor
    norm_num at hfloor
  unfold Body.applyGravity Vec3.normalize
  rw [if_neg hid]
  simp only [if_neg hfloor, if_neg hlen]

/-- C6 helper: a non-fixed integration step, fully unfolded. -/
theorem Body.update_eval (b : Body) (dt : ℝ) (h : b.isFixed = false) :
    b.update dt = { b with
      velocity := b.velocity + Vec3.smul dt b.acceleration,
      position := b.position +
        Vec3.smul dt (b.velocity + Vec3.smul dt b.acceleration) +
        Vec3.smul (0.5 * dt * dt) b.acceleration,
      acceleration := Vec3.zero } := by
  unfold Body.update
  rw [h]
  simp

/-- C6: for a non-fixed body, update(dt) first adds acceleration · dt to
the velocity, then advances the position by the updated velocity · dt
plus ½ · acceleration · dt², and finally resets the acceleration to
zero. -/
theorem update_velocity_first_then_position (b : Body) (dt : ℝ)
    (h : b.isFixed = false) :
    (b.update dt).velocity = b.velocity + Vec3.smul dt b.acceleration ∧
    (b.update dt).position = b.position +
      Vec3.smul dt ((b.update dt).velocity) +
      Vec3.smul (0.5 * dt * dt) b.acceleration ∧
    (b.update dt).acceleration = Vec3.zero := by
  rw [Body.update_eval b dt h]
  exact ⟨rfl, rfl, rfl⟩

/-- Witness for C6 at a concrete non-fixed body and dt = 2. -/
theorem update_velocity_first_then_position_witness :
    (⟨7, ⟨1, 0, 0⟩, ⟨0, 1, 0⟩, ⟨0, 0, 3⟩, ⟨1, 1, 1⟩, 5, 1, false, []⟩ :
        Body).isFixed = false ∧
      (((⟨7, ⟨1, 0, 0⟩, ⟨0, 1, 0⟩, ⟨0, 0, 3⟩, ⟨1, 1, 1⟩, 5, 1, false,
            []⟩ : Body).update 2).velocity =
          ⟨0, 1, 0⟩ + Vec3.smul 2 ⟨0, 0, 3⟩ ∧
        ((⟨7, ⟨1, 0, 0⟩, ⟨0, 1, 0⟩, ⟨0, 0, 3⟩, ⟨1, 1, 1⟩, 5, 1, false,
            []⟩ : Body).update 2).position =
          ⟨1, 0, 0⟩ +
            Vec3.smul 2
              (((⟨7, ⟨1, 0, 0⟩, ⟨0, 1, 0⟩, ⟨0, 0, 3⟩, ⟨1, 1, 1⟩, 5, 1,
                  false, []⟩ : Body).update 2).velocity) +
            Vec3.smul (0.5 * 2 * 2) ⟨0, 0, 3⟩ ∧
        ((⟨7, ⟨1, 0, 0⟩, ⟨0, 1, 0⟩, ⟨0, 0, 3⟩, ⟨1, 1, 1⟩, 5, 1, false,
            []⟩ : Body).update 2).acceleration = Vec3.zero) :=
  ⟨rfl, update_velocity_first_then_position _ 2 rfl⟩

/-! Trajectory cap. -/

theorem addTrajectoryPoint_length_le (b : Body)
    (h : b.trajectory.length ≤ MAX_TRAJECTORY_POINTS) :
    b.addTrajectoryPoint.trajectory.length ≤ MAX_TRAJECTORY_POINTS := by
  unfold Body.addTrajectoryPoint
  dsimp only
  split
  · simp only [List.length_tail, List.length_append, List.length_cons,
      List.length_nil]
    omega
  · simp only [List.length_append, List.length_cons, List.length_nil] at *
    omega

/-- C9: the 500-entry cap.  One recordTrajectorySample call appends the
current position and drops exactly the entries beyond the cap from the
front (FIFO: at most one, the oldest), so starting at or below the cap
the history never exceeds 500 entries, over any number of calls. -/
theorem trajectory_cap (b : Body)
    (h : b.trajectory.length ≤ MAX_TRAJECTORY_POINTS) :
    b.addTrajectoryPoint.trajectory =
      (b.trajectory ++ [b.position]).drop
        (b.trajectory.length + 1 - MAX_TRAJECTORY_POINTS) ∧
    b.addTrajectoryPoint.trajectory.length ≤ MAX_TRAJECTORY_POINTS ∧
    ∀ n, ((Body.addTrajectoryPoint)^[n] b).trajectory.length ≤
      MAX_TRAJECTORY_POINTS := by
  refine ⟨?_, addTrajectoryPoint_length_le b h, ?_⟩
  · unfold Body.addTrajectoryPoint
    by_cases hc :
        MAX_TRAJECTORY_POINTS < (b.trajectory ++ [b.position]).length
    · have hlen : b.trajectory.length = MAX_TRAJECTORY_POINTS := by
        simp only [List.length_append, List.length_cons, List.length_nil] at hc
        omega
      simp only [if_pos hc, hlen]
      rw [show MAX_TRAJECTORY_POINTS + 1 - MAX_TRAJECTORY_POINTS = 1 by omega,
        List.drop_one]
    · have hzero : b.trajectory.length + 1 - MAX_TRAJECTORY_POINTS = 0 := by
        simp only [List.length_append, List.length_cons, List.length_nil] at hc
        omega
      simp only [if_neg hc, hzero, List.drop_zero]
  · intro n
    induction n generalizing b with
    | zero => simpa using h
    | succ n ih =>
      rw [Function.iterate_succ_apply]
      exact ih _ (addTrajectoryPoint_length_le b h)

/-- Witness for C9 at a concrete body with a 1-entry history. -/
theorem trajectory_cap_witness :
    (⟨3, ⟨5, 0, 0⟩, Vec3.zero, Vec3.zero, ⟨1, 1, 1⟩, 2, 1, false,
        [⟨4, 0, 0⟩]⟩ : Body).trajectory.length ≤ MAX_TRAJECTORY_POINTS ∧
      ((⟨3, ⟨5, 0, 0⟩, Vec3.zero, Vec3.zero, ⟨1, 1, 1⟩, 2, 1, false,
          [⟨4, 0, 0⟩]⟩ : Body).addTrajectoryPoint.trajectory =
        ((⟨3, ⟨5, 0, 0⟩, Vec3.zero, Vec3.zero, ⟨1, 1, 1⟩, 2, 1, false,
            [⟨4, 0, 0⟩]⟩ : Body).trajectory ++
          [(⟨5, 0, 0⟩ : Vec3)]).drop
          ((⟨3, ⟨5, 0, 0⟩, Vec3.zero, Vec3.zero, ⟨1, 1, 1⟩, 2, 1, false,
              [⟨4, 0, 0⟩]⟩ : Body).trajectory.length + 1 -
            MAX_TRAJECTORY_POINTS) ∧
      (⟨3, ⟨5, 0, 0⟩, Vec3.zero, Vec3.zero, ⟨1, 1, 1⟩, 2, 1, false,
          [⟨4, 0, 0⟩]⟩ : Body).addTrajectoryPoint.trajectory.length ≤
        MAX_TRAJECTORY_POINTS ∧
      ∀ n, ((Body.addTrajectoryPoint)^[n]
          (⟨3, ⟨5, 0, 0⟩, Vec3.zero, Vec3.zero, ⟨1, 1, 1⟩, 2, 1, false,
            [⟨4, 0, 0⟩]⟩ : Body)).trajectory.length ≤
        MAX_TRAJECTORY_POINTS) :=
  ⟨by norm_num [MAX_TRAJECTORY_POINTS],
   trajectory_cap _ (by norm_num [MAX_TRAJECTORY_POINTS])⟩

/-! The opening-angle criterion. -/

/-- C4 (amended): an internal node is approximated as a point mass
exactly when the target's distance to the center of mass is at least the
0.1 floor AND size / distance < theta; below the floor the code refuses
the approximation (it does not clamp the distance). -/
theorem shouldUseApproximation_criterion (t : OctreeNode) (p : Vec3)
    (theta : ℝ) :
    t.shouldUseApproximation p theta ↔
      ¬ (t.centerOfMass - p).length < 0.1 ∧
        t.size / (t.centerOfMass - p).length < theta := by
  unfold OctreeNode.shouldUseApproximation
  dsimp only
  split
  · simp_all
  · simp_all

/-- C4 counterexample: a tiny internal node (size 1/100) whose center of
mass lies 1/20 from the target.  The claimed clamped criterion
`size / max(distance, 0.1) < theta` holds, but the code refuses the
approximation because the distance is below the 0.1 floor. -/
theorem shouldUseApproximation_no_clamp :
    ¬ ((OctreeNode.mk ⟨0, 0, 0⟩ (1 / 100) 1 ⟨0, 0, 0⟩ [] none false
          0).shouldUseApproximation ⟨1 / 20, 0, 0⟩ (1 / 2) ↔
        (OctreeNode.mk ⟨0, 0, 0⟩ (1 / 100) 1 ⟨0, 0, 0⟩ [] none false
            0).size /
          max (((OctreeNode.mk ⟨0, 0, 0⟩ (1 / 100) 1 ⟨0, 0, 0⟩ [] none
              false 0).centerOfMass - ⟨1 / 20, 0, 0⟩).length) 0.1 <
          1 / 2) := by
  have hlen :
      ((OctreeNode.mk ⟨0, 0, 0⟩ (1 / 100) 1 ⟨0, 0, 0⟩ [] none false
          0).centerOfMass - ⟨1 / 20, 0, 0⟩).length = 1 / 20 := by
    show (Vec3.mk (0 - 1 / 20) (0 - 0) (0 - 0)).length = 1 / 20
    rw [show Vec3.mk (0 - 1 / 20) (0 - 0) (0 - 0) =
          Vec3.mk (-(1 / 20)) 0 0 by norm_num]
    rw [show (Vec3.mk (-(1 / 20)) 0 0) =
          (⟨-(1 / 20), 0, 0⟩ : Vec3) from rfl, Vec3.length_axis]
    norm_num
  unfold OctreeNode.shouldUseApproximation
  rw [hlen]
  rw [if_pos (by norm_num : (1 / 20 : ℝ) < 0.1)]
  show ¬ (False ↔ (1 / 100 : ℝ) / max (1 / 20) 0.1 < 1 / 2)
  norm_num

/-! Softening floor and the coincidence singularity. -/

/-- C5 (amended): for distinct bodies at distinct positions the
accumulated contribution is bounded — the clamped distance is at least
0.1, so the magnitude is at most |G|·|m_other|·100 — and only the
acceleration changes.  (At exactly coincident positions applyGravity
instead normalizes the zero direction vector, see the counterexample.) -/
theorem applyGravity_bounded (a b : Body) (G : ℝ) (hid : b.id ≠ a.id)
    (hlen : (b.position - a.position).length ≠ 0) :
    ∃ a', a.applyGravity b G = some a' ∧
      a'.position = a.position ∧ a'.velocity = a.velocity ∧
      (a'.acceleration - a.acceleration).length ≤ |G| * |b.mass| * 100 := by
  have hpos : 0 < (b.position - a.position).length :=
    lt_of_le_of_ne (Vec3.length_nonneg _) (Ne.symm hlen)
  unfold Body.applyGravity Vec3.normalize
  rw [if_neg hid]
  simp only [if_neg hlen]
  refine ⟨_, rfl, rfl, rfl, ?_⟩
  have hsub :
      ∀ u v : Vec3, (u + v) - u = v := by
    intro u v
    ext <;> simp
  rw [hsub]
  set len := (b.position - a.position).length with hlendef
  set d : ℝ := if len < 0.1 then 0.1 else len with hddef
  have hd : (0.1 : ℝ) ≤ d := by
    rw [hddef]
    split
    · norm_num
    · linarith [not_lt.mp (by assumption : ¬ len < 0.1)]
  rw [Vec3.length_smul, Vec3.length_smul]
  have hunit : |1 / len| * len = 1 := by
    rw [abs_of_nonneg (by positivity : (0:ℝ) ≤ 1 / len)]
    field_simp
  rw [show |G * a.mass * b.mass / (d * d) / a.mass| * (|1 / len| * len) =
        |G * a.mass * b.mass / (d * d) / a.mass| * (|1 / len| * len) from
        rfl, hunit, mul_one]
  by_cases hm : a.mass = 0
  · rw [hm, div_zero, abs_zero]
    positivity
  · rw [abs_div, abs_div]
    rw [show |G * a.mass * b.mass| = |G| * |a.mass| * |b.mass| by
      rw [abs_mul, abs_mul]]
    have hma : 0 < |a.mass| := abs_pos.mpr hm
    have hdd : (0.01 : ℝ) ≤ |d * d| := by
      rw [abs_of_nonneg (by nlinarith : (0:ℝ) ≤ d * d)]
      nlinarith
    rw [div_div, div_le_iff₀ (by nlinarith : (0:ℝ) < |d * d| * |a.mass|)]
    have hG : 0 ≤ |G| * |b.mass| := by positivity
    have h1 : (1 : ℝ) ≤ 100 * |d * d| := by nlinarith
    have h2 := mul_le_mul_of_nonneg_left h1 (mul_nonneg hG hma.le)
    nlinarith [h2]

/-- C5 counterexample: two distinct bodies at exactly the same position.
The direction vector is zero, so glm::normalize divides by the unclamped
zero length (NaN in float arithmetic, `none` here): no finite
acceleration contribution is produced. -/
theorem applyGravity_coincident_nan :
    Body.applyGravity
      ⟨1, ⟨2, 3, 4⟩, Vec3.zero, Vec3.zero, ⟨1, 1, 1⟩, 5, 1, false, []⟩
      ⟨2, ⟨2, 3, 4⟩, Vec3.zero, Vec3.zero, ⟨1, 1, 1⟩, 7, 1, false, []⟩
      (1 / 10) = none := by
  unfold Body.applyGravity Vec3.normalize
  rw [if_neg (by norm_num : ¬ (2 : Nat) = 1)]
  have hdir :
      ((⟨2, ⟨2, 3, 4⟩, Vec3.zero, Vec3.zero, ⟨1, 1, 1⟩, 7, 1, false,
          []⟩ : Body).position -
        (⟨1, ⟨2, 3, 4⟩, Vec3.zero, Vec3.zero, ⟨1, 1, 1⟩, 5, 1, false,
          []⟩ : Body).position) = ⟨0, 0, 0⟩ := by
    show (Vec3.mk (2 - 2) (3 - 3) (4 - 4)) = ⟨0, 0, 0⟩
    norm_num
  have hlen : ((⟨0, 0, 0⟩ : Vec3)).length = 0 := by
    unfold Vec3.length
    norm_num
  simp only [hdir, hlen]
  norm_num

/-- Witness for C5 (amended) at two bodies 10 apart on the x-axis. -/
theorem applyGravity_bounded_witness :
    ((⟨2, ⟨10, 0, 0⟩, Vec3.zero, Vec3.zero, ⟨1, 1, 1⟩, 1000, 1, true,
        []⟩ : Body).id ≠
      (⟨1, ⟨0, 0, 0⟩, Vec3.zero, Vec3.zero, ⟨1, 1, 1⟩, 1, 1, false,
        []⟩ : Body).id) ∧
    (((⟨2, ⟨10, 0, 0⟩, Vec3.zero, Vec3.zero, ⟨1, 1, 1⟩, 1000, 1, true,
        []⟩ : Body).position -
      (⟨1, ⟨0, 0, 0⟩, Vec3.zero, Vec3.zero, ⟨1, 1, 1⟩, 1, 1, false,
        []⟩ : Body).position).length ≠ 0) ∧
    (∃ a', (⟨1, ⟨0, 0, 0⟩, Vec3.zero, Vec3.zero, ⟨1, 1, 1⟩, 1, 1, false,
        []⟩ : Body).applyGravity
        (⟨2, ⟨10, 0, 0⟩, Vec3.zero, Vec3.zero, ⟨1, 1, 1⟩, 1000, 1, true,
          []⟩ : Body) (1 / 10) = some a' ∧
      a'.position = (⟨1, ⟨0, 0, 0⟩, Vec3.zero, Vec3.zero, ⟨1, 1, 1⟩, 1, 1,
        false, []⟩ : Body).position ∧
      a'.velocity = (⟨1, ⟨0, 0, 0⟩, Vec3.zero, Vec3.zero, ⟨1, 1, 1⟩, 1, 1,
        false, []⟩ : Body).velocity ∧
      (a'.acceleration - (⟨1, ⟨0, 0, 0⟩, Vec3.zero, Vec3.zero, ⟨1, 1, 1⟩,
        1, 1, false, []⟩ : Body).acceleration).length ≤
        |(1 : ℝ) / 10| * |(1000 : ℝ)| * 100) := by
  have hlen :
      ((⟨2, ⟨10, 0, 0⟩, Vec3.zero, Vec3.zero, ⟨1, 1, 1⟩, 1000, 1, true,
          []⟩ : Body).position -
        (⟨1, ⟨0, 0, 0⟩, Vec3.zero, Vec3.zero, ⟨1, 1, 1⟩, 1, 1, false,
          []⟩ : Body).position).length ≠ 0 := by
    show (Vec3.mk (10 - 0) (0 - 0) (0 - 0)).length ≠ 0
    rw [show Vec3.mk (10 - 0) (0 - 0) (0 - 0) =
          (⟨10, 0, 0⟩ : Vec3) by norm_num, Vec3.length_axis]
    norm_num
  exact ⟨by norm_num, hlen, applyGravity_bounded _ _ _ (by norm_num) hlen⟩

/-! Octant geometry. -/

theorem getOctant_lt_8 (t : OctreeNode) (p : Vec3) : t.getOctant p < 8 := by
  unfold OctreeNode.getOctant
  split <;> split <;> split <;> norm_num

/-- Any node whose center and size are those of the octant child selected
for `p` contains `p` whenever the parent does. -/
theorem contains_of_octant (t c : OctreeNode) (p : Vec3)
    (hc : c.center = t.getOctantCenter (t.getOctant p))
    (hs : c.size = t.size * 0.5) (h : t.contains p) : c.contains p := by
  obtain ⟨h1, h2, h3, h4, h5, h6⟩ := h
  unfold OctreeNode.contains
  rw [hs, hc]
  unfold OctreeNode.getOctantCenter OctreeNode.getOctant
  by_cases hx : t.center.x ≤ p.x <;> by_cases hy : t.center.y ≤ p.y <;>
    by_cases hz : t.center.z ≤ p.z <;>
    simp only [hx, hy, hz, if_true, if_false, reduceIte] <;>
    norm_num <;>
    refine ⟨by linarith, by linarith, by linarith, by linarith, by linarith,
      by linarith⟩

/-- C10: if a node contains a position, the subdivide child at that
position's octant index exists and also contains the position; recursive
insertion of a contained body therefore never reaches the out-of-bounds
reject branch in a descendant. -/
theorem subdivide_octant_contains (t : OctreeNode) (p : Vec3)
    (h : t.contains p) :
    ∃ c, (t.subdivide).children[t.getOctant p]? = some c ∧ c.contains p := by
  have hlt := getOctant_lt_8 t p
  refine ⟨OctreeNode.new (t.getOctantCenter (t.getOctant p)) (t.size * 0.5)
    (t.depth + 1), ?_, ?_⟩
  · show ((List.range 8).map fun i =>
        OctreeNode.new (t.getOctantCenter i) (t.size * 0.5)
          (t.depth + 1))[t.getOctant p]? = _
    rw [List.getElem?_map, List.getElem?_range hlt]
    rfl
  · exact contains_of_octant t _ p rfl rfl h

/-- Witness for C10: unit-scale node at the origin and an interior
point. -/
theorem subdivide_octant_contains_witness :
    (OctreeNode.new ⟨0, 0, 0⟩ 2 0).contains ⟨1 / 2, -1 / 2, 0⟩ ∧
      ∃ c, ((OctreeNode.new ⟨0, 0, 0⟩ 2 0).subdivide).children[
          (OctreeNode.new ⟨0, 0, 0⟩ 2 0).getOctant ⟨1 / 2, -1 / 2, 0⟩]? =
            some c ∧
        c.contains ⟨1 / 2, -1 / 2, 0⟩ := by
  have h : (OctreeNode.new ⟨0, 0, 0⟩ 2 0).contains ⟨1 / 2, -1 / 2, 0⟩ := by
    unfold OctreeNode.contains OctreeNode.new
    norm_num
  exact ⟨h, subdivide_octant_contains _ _ h⟩

/-! Branch lemmas for insertBody and updateMassProperties. -/

theorem insertBody_fuel_zero (t : OctreeNode) (cb : Body) :
    OctreeNode.insertBody 0 t cb = t := rfl

theorem insertBody_reject (fuel : Nat) (t : OctreeNode) (cb : Body)
    (h : ¬ t.contains cb.position) :
    OctreeNode.insertBody (fuel + 1) t cb = t := by
  conv_lhs => unfold OctreeNode.insertBody
  rw [if_pos h]

theorem insertBody_empty (fuel : Nat) (t : OctreeNode) (cb : Body)
    (h : t.contains cb.position) (h2 : t.totalMass = 0) :
    OctreeNode.insertBody (fuel + 1) t cb =
      .mk t.center t.size cb.mass cb.position t.children (some cb) true
        t.depth := by
  conv_lhs => unfold OctreeNode.insertBody
  rw [if_neg (fun hq => hq h), if_pos h2]

theorem insertBody_merge (fuel : Nat) (t : OctreeNode) (cb b0 : Body)
    (h : t.contains cb.position) (h2 : ¬ t.totalMass = 0)
    (h3 : t.isLeaf = true) (h4 : t.body = some b0)
    (h5 : OCTREE_MAX_DEPTH ≤ t.depth ∨ t.size < OCTREE_MIN_SIZE) :
    OctreeNode.insertBody (fuel + 1) t cb =
      .mk t.center t.size (t.totalMass + cb.mass)
        ((Vec3.smul t.totalMass t.centerOfMass +
          Vec3.smul cb.mass cb.position).divScalar (t.totalMass + cb.mass))
        t.children t.body t.isLeaf t.depth := by
  cases t with
  | mk c s m com cs b l d =>
    simp only [OctreeNode.isLeaf_mk] at h3
    simp only [OctreeNode.body_mk] at h4
    subst h3
    subst h4
    conv_lhs => unfold OctreeNode.insertBody
    rw [if_neg (fun hq => hq h), if_neg h2]
    show (if OCTREE_MAX_DEPTH ≤ d ∨ s < OCTREE_MIN_SIZE then _ else _) = _
    rw [if_pos (by simpa using h5)]

theorem insertBody_split (fuel : Nat) (t : OctreeNode) (cb b0 : Body)
    (h : t.contains cb.position) (h2 : ¬ t.totalMass = 0)
    (h3 : t.isLeaf = true) (h4 : t.body = some b0)
    (h5 : ¬ (OCTREE_MAX_DEPTH ≤ t.depth ∨ t.size < OCTREE_MIN_SIZE)) :
    OctreeNode.insertBody (fuel + 1) t cb =
      (let s0 := OctreeNode.subdivide
        (.mk t.center t.size t.totalMass t.centerOfMass t.children none
          false t.depth)
       let eo := s0.getOctant b0.position
       let s1 :=
         match s0.children[eo]? with
         | some c => s0.setChild eo (OctreeNode.insertBody fuel c b0)
         | none => s0
       let no := s1.getOctant cb.position
       let s2 :=
         match s1.children[no]? with
         | some c => s1.setChild no (OctreeNode.insertBody fuel c cb)
         | none => s1
       s2.updateMassProperties) := by
  cases t with
  | mk c s m com cs b l d =>
    simp only [OctreeNode.isLeaf_mk] at h3
    simp only [OctreeNode.body_mk] at h4
    subst h3
    subst h4
    conv_lhs => unfold OctreeNode.insertBody
    rw [if_neg (fun hq => hq h), if_neg h2]
    show (if OCTREE_MAX_DEPTH ≤ d ∨ s < OCTREE_MIN_SIZE then _ else _) = _
    rw [if_neg (by simpa using h5)]

theorem insertBody_leaf_nobody (fuel : Nat) (t : OctreeNode) (cb : Body)
    (h : t.contains cb.position) (h2 : ¬ t.totalMass = 0)
    (h3 : t.isLeaf = true) (h4 : t.body = none) :
    OctreeNode.insertBody (fuel + 1) t cb = t.updateMassProperties := by
  cases t with
  | mk c s m com cs b l d =>
    simp only [OctreeNode.isLeaf_mk] at h3
    simp only [OctreeNode.body_mk] at h4
    subst h3
    subst h4
    conv_lhs => unfold OctreeNode.insertBody
    rw [if_neg (fun hq => hq h), if_neg h2]
    rfl

theorem insertBody_internal (fuel : Nat) (t : OctreeNode) (cb : Body)
    (h : t.contains cb.position) (h2 : ¬ t.totalMass = 0)
    (h3 : t.isLeaf = false) :
    OctreeNode.insertBody (fuel + 1) t cb =
      (match t.children[t.getOctant cb.position]? with
        | some c => t.setChild (t.getOctant cb.position)
            (OctreeNode.insertBody fuel c cb)
        | none => t).updateMassProperties := by
  cases t with
  | mk c s m com cs b l d =>
    simp only [OctreeNode.isLeaf_mk] at h3
    subst h3
    conv_lhs => unfold OctreeNode.insertBody
    rw [if_neg (fun hq => hq h), if_neg h2]
    rfl

theorem updateMassProperties_leaf_body (t : OctreeNode) (b : Body)
    (h : t.isLeaf = true) (h2 : t.body = some b) :
    t.updateMassProperties =
      .mk t.center t.size b.mass b.position t.children t.body t.isLeaf
        t.depth := by
  unfold OctreeNode.updateMassProperties
  rw [h, h2]
  simp

theorem updateMassProperties_leaf_nobody (t : OctreeNode)
    (h : t.isLeaf = true) (h2 : t.body = none) :
    t.updateMassProperties = t := by
  unfold OctreeNode.updateMassProperties
  rw [h, h2]
  simp

/-- The per-child contribution to an internal node's recomputed mass:
positive-mass children count, the rest contribute nothing. -/
def childMass (c : OctreeNode) : ℝ :=
  if 0 < c.totalMass then c.totalMass else 0

theorem massFold_fst (cs : List OctreeNode) (a : ℝ) (w : Vec3) :
    (cs.foldl
      (fun (acc : ℝ × Vec3) c =>
        if 0 < c.totalMass then
          (acc.1 + c.totalMass, acc.2 + Vec3.smul c.totalMass c.centerOfMass)
        else acc)
      (a, w)).1 = a + (cs.map childMass).sum := by
  induction cs generalizing a w with
  | nil => simp
  | cons c cs ih =>
    simp only [List.foldl_cons, List.map_cons, List.sum_cons]
    by_cases hc : 0 < c.totalMass
    · rw [if_pos hc, ih, childMass, if_pos hc]
      ring
    · rw [if_neg hc, ih, childMass, if_neg hc]
      ring

theorem updateMassProperties_internal_totalMass (t : OctreeNode)
    (h : t.isLeaf = false) :
    t.updateMassProperties.totalMass = (t.children.map childMass).sum := by
  unfold OctreeNode.updateMassProperties
  rw [h]
  simp only [Bool.false_eq_true, if_false, OctreeNode.totalMass_mk]
  rw [massFold_fst]
  ring

/-- updateMassProperties only rewrites the aggregates. -/
theorem updateMassProperties_fields (t : OctreeNode) :
    t.updateMassProperties.center = t.center ∧
    t.updateMassProperties.size = t.size ∧
    t.updateMassProperties.children = t.children ∧
    t.updateMassProperties.body = t.body ∧
    t.updateMassProperties.isLeaf = t.isLeaf ∧
    t.updateMassProperties.depth = t.depth := by
  unfold OctreeNode.updateMassProperties
  split
  · split
    · simp_all
    · simp_all
  · simp

/-! A concrete degenerate leaf: a node below OCTREE_MIN_SIZE that merged
a second body into its aggregate. -/

def degBodyA : Body :=
  ⟨1, ⟨0, 0, 0⟩, Vec3.zero, Vec3.zero, ⟨1, 1, 1⟩, 1, 1, false, []⟩

def degBodyB : Body :=
  ⟨2, ⟨1 / 50, 0, 0⟩, Vec3.zero, Vec3.zero, ⟨1, 1, 1⟩, 1, 1, false, []⟩

def degTarget : Body :=
  ⟨9, ⟨1, 0, 0⟩, Vec3.zero, Vec3.zero, ⟨1, 1, 1⟩, 1, 1, false, []⟩

def degNode : OctreeNode :=
  OctreeNode.insertBody INSERT_FUEL
    (OctreeNode.insertBody INSERT_FUEL (OctreeNode.new ⟨0, 0, 0⟩ (1 / 20) 0)
      degBodyA)
    degBodyB

theorem degNode_eval :
    degNode =
      OctreeNode.mk ⟨0, 0, 0⟩ (1 / 20) 2 ⟨1 / 100, 0, 0⟩ [] (some degBodyA)
        true 0 := by
  have h1 : OctreeNode.insertBody (11 + 1)
      (OctreeNode.new ⟨0, 0, 0⟩ (1 / 20) 0) degBodyA =
      OctreeNode.mk ⟨0, 0, 0⟩ (1 / 20) 1 ⟨0, 0, 0⟩ [] (some degBodyA) true
        0 := by
    rw [insertBody_empty 11 (OctreeNode.new ⟨0, 0, 0⟩ (1 / 20) 0) degBodyA
      (by unfold OctreeNode.new OctreeNode.contains degBodyA; norm_num) rfl]
    rfl
  have h2 : OctreeNode.insertBody (11 + 1)
      (OctreeNode.mk ⟨0, 0, 0⟩ (1 / 20) 1 ⟨0, 0, 0⟩ [] (some degBodyA) true
        0) degBodyB =
      OctreeNode.mk ⟨0, 0, 0⟩ (1 / 20) 2 ⟨1 / 100, 0, 0⟩ [] (some degBodyA)
        true 0 := by
    rw [insertBody_merge 11
      (OctreeNode.mk ⟨0, 0, 0⟩ (1 / 20) 1 ⟨0, 0, 0⟩ [] (some degBodyA) true
        0) degBodyB degBodyA
      (by unfold OctreeNode.contains degBodyB; norm_num)
      (by norm_num) rfl rfl
      (Or.inr (by unfold OCTREE_MIN_SIZE; norm_num))]
    simp only [OctreeNode.center_mk, OctreeNode.size_mk,
      OctreeNode.totalMass_mk, OctreeNode.centerOfMass_mk,
      OctreeNode.children_mk, OctreeNode.body_mk, OctreeNode.isLeaf_mk,
      OctreeNode.depth_mk, OctreeNode.mk.injEq, and_true, true_and]
    refine ⟨?_, ?_⟩
    · show (1 : ℝ) + degBodyB.mass = 2
      unfold degBodyB
      norm_num
    · show (Vec3.smul 1 ⟨0, 0, 0⟩ +
          Vec3.smul degBodyB.mass degBodyB.position).divScalar
          (1 + degBodyB.mass) = ⟨1 / 100, 0, 0⟩
      unfold degBodyB
      show (Vec3.smul 1 ⟨0, 0, 0⟩ +
          Vec3.smul 1 ⟨1 / 50, 0, 0⟩).divScalar (1 + 1) = ⟨1 / 100, 0, 0⟩
      simp only [Vec3.smul, Vec3.divScalar, Vec3.add_def]
      apply Vec3.ext <;> norm_num
  show OctreeNode.insertBody INSERT_FUEL
      (OctreeNode.insertBody INSERT_FUEL (OctreeNode.new ⟨0, 0, 0⟩ (1 / 20)
        0) degBodyA) degBodyB = _
  rw [show INSERT_FUEL = 11 + 1 from rfl, h1, h2]

theorem calculateForce_degNode :
    OctreeNode.calculateForce degNode degTarget 1 (1 / 2) =
      some { degTarget with acceleration := ⟨-1, 0, 0⟩ } := by
  rw [degNode_eval]
  conv_lhs => unfold OctreeNode.calculateForce
  rw [if_neg (by norm_num), dif_pos ⟨rfl, rfl⟩]
  rw [if_neg (by unfold degBodyA degTarget; norm_num)]
  have hdir : degBodyA.position - degTarget.position = ⟨-1, 0, 0⟩ := by
    unfold degBodyA degTarget
    apply Vec3.ext <;> norm_num
  have habs : |(-1 : ℝ)| = 1 := by norm_num
  have hfloor : ¬ (degBodyA.position - degTarget.position).length < 0.1 := by
    rw [hdir, Vec3.length_axis, habs]
    norm_num
  show degTarget.applyGravity degBodyA 1 = _
  rw [Body.applyGravity_eval degTarget degBodyA 1
    (by unfold degBodyA degTarget; norm_num) hfloor]
  rw [hdir, Vec3.length_axis, habs]
  simp only [Option.some.injEq]
  show ({ degTarget with acceleration := (degTarget.acceleration +
      Vec3.smul (1 * degTarget.mass * degBodyA.mass / (1 * 1) /
        degTarget.mass) (Vec3.smul (1 / 1) ⟨-1, 0, 0⟩)) } : Body) = _
  unfold degTarget degBodyA
  simp only [Vec3.smul, Vec3.zero, Vec3.add_def, Body.mk.injEq]
  refine ⟨trivial, trivial, trivial, ?_, trivial, trivial, trivial, trivial,
    trivial⟩
  apply Vec3.ext <;> norm_num

theorem pointMassForce_degNode :
    OctreeNode.pointMassForce degNode degTarget 1 =
      some { degTarget with acceleration := ⟨-(20000 / 9801), 0, 0⟩ } := by
  rw [degNode_eval]
  unfold OctreeNode.pointMassForce Vec3.normalize
  simp only [OctreeNode.centerOfMass_mk, OctreeNode.totalMass_mk,
    OctreeNode.size_mk]
  have hdir :
      (⟨1 / 100, 0, 0⟩ : Vec3) - degTarget.position =
        ⟨-(99 / 100), 0, 0⟩ := by
    unfold degTarget
    apply Vec3.ext <;> norm_num
  have habs : |(-(99 / 100) : ℝ)| = 99 / 100 := by
    rw [abs_neg]
    exact abs_of_nonneg (by norm_num)
  rw [hdir, Vec3.length_axis, habs]
  rw [if_neg (by norm_num : ¬ (99 / 100 : ℝ) < 0.1),
    if_neg (by norm_num : ¬ (99 / 100 : ℝ) = 0)]
  simp only [Option.some.injEq]
  show ({ degTarget with acceleration := (degTarget.acceleration +
      Vec3.smul (1 * degTarget.mass * 2 / (99 / 100 * (99 / 100)) /
        degTarget.mass)
        (Vec3.smul (1 / (99 / 100)) ⟨-(99 / 100), 0, 0⟩)) } : Body) = _
  unfold degTarget
  simp only [Vec3.smul, Vec3.zero, Vec3.add_def, Body.mk.injEq]
  refine ⟨trivial, trivial, trivial, ?_, trivial, trivial, trivial, trivial,
    trivial⟩
  apply Vec3.ext <;> norm_num

/-- C2 counterexample: a leaf that merged a second body (totalMass 2,
occupant mass 1) does NOT contribute force as a point mass of the
aggregate totalMass at the centerOfMass — the traversal instead applies
gravity from the single occupant body. -/
theorem degenerate_leaf_not_point_mass :
    degNode.isLeaf = true ∧ degNode.totalMass = 2 ∧
    degNode.body = some degBodyA ∧ degBodyA.mass = 1 ∧
    OctreeNode.calculateForce degNode degTarget 1 (1 / 2) ≠
      OctreeNode.pointMassForce degNode degTarget 1 := by
  refine ⟨by rw [degNode_eval]; rfl, by rw [degNode_eval]; norm_num,
    by rw [degNode_eval]; rfl, rfl, ?_⟩
  rw [calculateForce_degNode, pointMassForce_degNode]
  simp only [ne_eq, Option.some.injEq]
  intro heq
  have hx := congrArg (fun b => b.acceleration.x) heq
  simp only at hx
  norm_num at hx

/-- C2 (amended): for every non-empty leaf — including a degenerate leaf
that merged extra bodies into its aggregate — calculateForce contributes
force from the single occupant body only (and skips entirely when the
occupant is the target); the aggregate totalMass/centerOfMass are not
used. -/
theorem calculateForce_leaf_occupant (t : OctreeNode) (target b : Body)
    (G theta : ℝ) (h2 : ¬ t.totalMass = 0) (h3 : t.isLeaf = true)
    (h4 : t.body = some b) :
    t.calculateForce target G theta =
      if b.id = target.id then some target
      else target.applyGravity b G := by
  cases t with
  | mk c s m com cs bd l d =>
    simp only [OctreeNode.isLeaf_mk] at h3
    simp only [OctreeNode.body_mk] at h4
    subst h3
    subst h4
    simp only [OctreeNode.totalMass_mk] at h2
    conv_lhs => unfold OctreeNode.calculateForce
    rw [if_neg h2, dif_pos ⟨rfl, rfl⟩]
    rfl

/-- Witness for C2 (amended) at the concrete degenerate leaf. -/
theorem calculateForce_leaf_occupant_witness :
    (¬ degNode.totalMass = 0) ∧ degNode.isLeaf = true ∧
    degNode.body = some degBodyA ∧
    OctreeNode.calculateForce degNode degTarget 1 (1 / 2) =
      (if degBodyA.id = degTarget.id then some degTarget
       else degTarget.applyGravity degBodyA 1) :=
  ⟨by rw [degNode_eval]; norm_num, by rw [degNode_eval]; rfl,
   by rw [degNode_eval]; rfl,
   calculateForce_leaf_occupant degNode degTarget degBodyA 1 (1 / 2)
     (by rw [degNode_eval]; norm_num) (by rw [degNode_eval]; rfl)
     (by rw [degNode_eval]; rfl)⟩

/-! The spec's concrete two-body scenario: fixed heavy body (mass 1000)
at the origin, light body (mass 1) at distance 10 on the x-axis,
G = 0.1. -/

def heavyBody : Body :=
  ⟨0, ⟨0, 0, 0⟩, Vec3.zero, Vec3.zero, ⟨1, 1, 1⟩, 1000, 1, true, []⟩

def lightBody : Body :=
  ⟨1, ⟨10, 0, 0⟩, Vec3.zero, Vec3.zero, ⟨1, 1, 1⟩, 1, 1, false, []⟩

theorem applyGravity_heavy_light :
    heavyBody.applyGravity lightBody (1 / 10) =
      some { heavyBody with acceleration := ⟨1 / 1000, 0, 0⟩ } := by
  have hdir : lightBody.position - heavyBody.position = ⟨10, 0, 0⟩ := by
    unfold heavyBody lightBody
    apply Vec3.ext <;> norm_num
  have habs : |(10 : ℝ)| = 10 := by norm_num
  have hfloor :
      ¬ (lightBody.position - heavyBody.position).length < 0.1 := by
    rw [hdir, Vec3.length_axis, habs]
    norm_num
  rw [Body.applyGravity_eval heavyBody lightBody (1 / 10)
    (by unfold heavyBody lightBody; norm_num) hfloor]
  rw [hdir, Vec3.length_axis, habs]
  simp only [Option.some.injEq]
  show ({ heavyBody with acceleration := (heavyBody.acceleration +
      Vec3.smul (1 / 10 * heavyBody.mass * lightBody.mass / (10 * 10) /
        heavyBody.mass) (Vec3.smul (1 / 10) ⟨10, 0, 0⟩)) } : Body) = _
  unfold heavyBody lightBody
  simp only [Vec3.smul, Vec3.zero, Vec3.add_def, Body.mk.injEq]
  refine ⟨trivial, trivial, trivial, ?_, trivial, trivial, trivial, trivial,
    trivial⟩
  apply Vec3.ext <;> norm_num

theorem applyGravity_light_heavy :
    Body.applyGravity { lightBody with acceleration := Vec3.zero }
      { heavyBody with acceleration := ⟨1 / 1000, 0, 0⟩ } (1 / 10) =
      some { lightBody with acceleration := ⟨-1, 0, 0⟩ } := by
  have hdir :
      ({ heavyBody with acceleration := ⟨1 / 1000, 0, 0⟩ } : Body).position -
        ({ lightBody with acceleration := Vec3.zero } : Body).position =
        ⟨-10, 0, 0⟩ := by
    unfold heavyBody lightBody
    apply Vec3.ext <;> norm_num
  have habs : |(-10 : ℝ)| = 10 := by norm_num
  have hfloor :
      ¬ (({ heavyBody with acceleration := ⟨1 / 1000, 0, 0⟩ } : Body).position -
        ({ lightBody with acceleration := Vec3.zero } : Body).position).length <
          0.1 := by
    rw [hdir, Vec3.length_axis, habs]
    norm_num
  rw [Body.applyGravity_eval _ _ (1 / 10)
    (by unfold heavyBody lightBody; norm_num) hfloor]
  rw [hdir, Vec3.length_axis, habs]
  simp only [Option.some.injEq]
  unfold heavyBody lightBody
  simp only [Vec3.smul, Vec3.zero, Vec3.add_def, Body.mk.injEq]
  refine ⟨trivial, trivial, trivial, ?_, trivial, trivial, trivial, trivial,
    trivial⟩
  apply Vec3.ext <;> norm_num

/-- One direct-mode force phase over a fixed/non-fixed body pair, with
the two pairwise applications given as hypotheses. -/
theorem updateGravityDirect_pair (G : ℝ) (b0 b1 b0' b1' : Body)
    (h0fix : b0.isFixed = true) (h1fix : b1.isFixed = false)
    (hAG0 : b0.applyGravity b1 G = some b0')
    (hAG1 : Body.applyGravity { b1 with acceleration := Vec3.zero } b0' G =
      some b1') :
    updateGravityDirect G [b0, b1] = some [b0', b1'] := by
  unfold updateGravityDirect
  rw [show List.range ([b0, b1] : List Body).length = [0, 1] from rfl]
  simp only [List.foldlM_cons, List.foldlM_nil, List.getElem?_cons_zero,
    List.getElem?_cons_succ, h0fix, h1fix]
  norm_num
  rw [show (List.range 2 : List Nat) = [0, 1] from rfl]
  simp only [List.foldlM_cons, List.foldlM_nil, List.getElem?_cons_zero,
    List.getElem?_cons_succ]
  norm_num
  rw [hAG0]
  simp only [h1fix] at hAG1
  simp only [Option.map_some', Option.some_bind, List.getElem?_cons_zero,
    List.getElem?_cons_succ, h1fix, Bool.false_eq_true, if_false,
    List.length_cons, List.length_nil]
  rw [show (List.range (0 + 1 + 1) : List Nat) = [0, 1] from rfl]
  simp only [List.foldlM_cons, List.foldlM_nil, List.getElem?_cons_zero,
    List.getElem?_cons_succ]
  norm_num
  rw [hAG1]

theorem updateGravityDirect_scenario :
    updateGravityDirect (1 / 10) [heavyBody, lightBody] =
      some [{ heavyBody with acceleration := ⟨1 / 1000, 0, 0⟩ },
            { lightBody with acceleration := ⟨-1, 0, 0⟩ }] :=
  updateGravityDirect_pair (1 / 10) heavyBody lightBody _ _ rfl rfl
    applyGravity_heavy_light applyGravity_light_heavy

theorem lightBody_update_eval :
    ({ lightBody with acceleration := ⟨-1, 0, 0⟩ } : Body).update 1 =
      { lightBody with
          velocity := ⟨-1, 0, 0⟩
          position := ⟨17 / 2, 0, 0⟩
          acceleration := Vec3.zero } := by
  rw [Body.update_eval _ 1 rfl]
  show ({ lightBody with
      velocity := (lightBody.velocity + Vec3.smul 1 ⟨-1, 0, 0⟩),
      position := (lightBody.position +
        Vec3.smul 1 (lightBody.velocity + Vec3.smul 1 ⟨-1, 0, 0⟩) +
        Vec3.smul (0.5 * 1 * 1) ⟨-1, 0, 0⟩),
      acceleration := Vec3.zero } : Body) = _
  unfold lightBody
  simp only [Vec3.smul, Vec3.zero, Vec3.add_def, Body.mk.injEq]
  refine ⟨trivial, ?_, ?_, trivial, trivial, trivial, trivial, trivial,
    trivial⟩ <;> apply Vec3.ext <;> norm_num

/-- C1 (amended): in the concrete two-body direct-mode scenario with
dt = 1 the light body's accumulated acceleration is (-1,0,0) (magnitude
1.0 toward the origin) and its post-integration velocity is (-1,0,0)
(magnitude 1.0), but its position moves by 1.5 — not 0.5 — toward the
origin along x (10 → 8.5), because the position update uses the already
updated velocity. -/
theorem direct_tick_scenario :
    updateGravityDirect (1 / 10) [heavyBody, lightBody] =
      some [{ heavyBody with acceleration := ⟨1 / 1000, 0, 0⟩ },
            { lightBody with acceleration := ⟨-1, 0, 0⟩ }] ∧
    (⟨-1, 0, 0⟩ : Vec3).length = 1 ∧
    ({ lightBody with acceleration := ⟨-1, 0, 0⟩ } : Body).update 1 =
      { lightBody with
          velocity := ⟨-1, 0, 0⟩
          position := ⟨17 / 2, 0, 0⟩
          acceleration := Vec3.zero } ∧
    lightBody.position.x - (17 / 2 : ℝ) = 3 / 2 := by
  refine ⟨updateGravityDirect_scenario, ?_, lightBody_update_eval, ?_⟩
  · rw [Vec3.length_axis]
    norm_num
  · show (10 : ℝ) - 17 / 2 = 3 / 2
    norm_num

/-- C1 counterexample: after the single direct-mode tick the light body
sits at x = 8.5, i.e. it moved 1.5 toward the origin; the claimed final
position 10 - 0.5 = 9.5 is wrong. -/
theorem direct_tick_not_half :
    updateGravityDirect (1 / 10) [heavyBody, lightBody] =
      some [{ heavyBody with acceleration := ⟨1 / 1000, 0, 0⟩ },
            { lightBody with acceleration := ⟨-1, 0, 0⟩ }] ∧
    (({ lightBody with acceleration := ⟨-1, 0, 0⟩ } : Body).update
        1).position.x = 17 / 2 ∧
    (17 / 2 : ℝ) ≠ 10 - 1 / 2 := by
  refine ⟨updateGravityDirect_scenario, ?_, by norm_num⟩
  rw [lightBody_update_eval]

/-- C3 counterexample: in direct mode the fixed heavy body's acceleration
is NOT left alone — applyGravity accumulates the light body's pull onto
it (only the zero-reset is guarded by isFixed), so its acceleration
becomes (1/1000, 0, 0) ≠ 0 during the force phase. -/
theorem fixed_body_accumulates_direct :
    heavyBody.isFixed = true ∧ heavyBody.acceleration = Vec3.zero ∧
    updateGravityDirect (1 / 10) [heavyBody, lightBody] =
      some [{ heavyBody with acceleration := ⟨1 / 1000, 0, 0⟩ },
            { lightBody with acceleration := ⟨-1, 0, 0⟩ }] ∧
    ({ heavyBody with acceleration := ⟨1 / 1000, 0, 0⟩ } : Body).acceleration
      ≠ Vec3.zero := by
  refine ⟨rfl, rfl, updateGravityDirect_scenario, ?_⟩
  intro h
  have hx := congrArg Vec3.x h
  simp only [Vec3.zero] at hx
  norm_num at hx

theorem mapM_fixed_preserved (f : Body → Option Body)
    (hf : ∀ b, b.isFixed = true → f b = some b) :
    ∀ (l l' : List Body), l.mapM f = some l' →
      ∀ (i : Nat) (b : Body), l[i]? = some b → b.isFixed = true →
        l'[i]? = some b := by
  intro l
  induction l with
  | nil =>
    intro l' h i b hib
    simp at hib
  | cons a t ih =>
    intro l' h i b hib hfix
    rw [List.mapM_cons] at h
    cases hfa : f a with
    | none =>
      rw [hfa] at h
      simp only [Option.bind_eq_bind, Option.none_bind] at h
      exact absurd h (by simp)
    | some a' =>
      rw [hfa] at h
      cases hft : t.mapM f with
      | none =>
        rw [hft] at h
        simp only [Option.bind_eq_bind, Option.none_bind,
          Option.some_bind] at h
        exact absurd h (by simp)
      | some ts' =>
        rw [hft] at h
        simp only [Option.bind_eq_bind, Option.some_bind, Option.pure_def,
          Option.some.injEq] at h
        subst h
        cases i with
        | zero =>
          simp only [List.getElem?_cons_zero, Option.some.injEq] at hib
          cases hib
          rw [hf a hfix] at hfa
          cases hfa
          simp
        | succ n =>
          simp only [List.getElem?_cons_succ] at hib ⊢
          exact ih ts' hft n b hib hfix

theorem updateGravityBarnesHut_fixed (G : ℝ) (bodies bodies' : List Body)
    (h : updateGravityBarnesHut G bodies = some bodies') (i : Nat)
    (b : Body) (hib : bodies[i]? = some b) (hfix : b.isFixed = true) :
    bodies'[i]? = some b := by
  unfold updateGravityBarnesHut at h
  refine mapM_fixed_preserved _ ?_ bodies bodies' h i b hib hfix
  intro c hc
  rw [hc]
  simp

/-- C3 (amended): the Barnes-Hut force phase never touches a fixed body —
it is skipped before any acceleration reset or traversal, so it passes
through unchanged.  (In direct mode, by contrast, fixed bodies DO
accumulate acceleration, see the counterexample; that acceleration is
discarded by update() without ever reaching velocity or position.) -/
theorem barnesHut_skips_fixed (G : ℝ) (bodies bodies' : List Body)
    (h : updateGravityBarnesHut G bodies = some bodies') (i : Nat)
    (b : Body) (hib : bodies[i]? = some b) (hfix : b.isFixed = true) :
    bodies'[i]? = some b :=
  updateGravityBarnesHut_fixed G bodies bodies' h i b hib hfix

theorem updateGravityBarnesHut_single :
    updateGravityBarnesHut (1 / 10) [heavyBody] = some [heavyBody] := by
  unfold updateGravityBarnesHut
  simp only [List.mapM_cons, List.mapM_nil]
  rw [show heavyBody.isFixed = true from rfl]
  simp

/-- Witness for C3 (amended): one fixed body, Barnes-Hut phase returns it
unchanged. -/
theorem barnesHut_skips_fixed_witness :
    updateGravityBarnesHut (1 / 10) [heavyBody] = some [heavyBody] ∧
    ([heavyBody] : List Body)[0]? = some heavyBody ∧
    heavyBody.isFixed = true ∧
    ([heavyBody] : List Body)[0]? = some heavyBody :=
  ⟨updateGravityBarnesHut_single, rfl, rfl,
   barnesHut_skips_fixed (1 / 10) [heavyBody] [heavyBody]
     updateGravityBarnesHut_single 0 heavyBody rfl rfl⟩

/-! Fixed-body invariance machinery: the force phases only write the
acceleration field. -/

/-- Kinematic state (everything integration reads or the renderer sees
except the transient acceleration) is unchanged. -/
def sameKin (b c : Body) : Prop :=
  c.position = b.position ∧ c.velocity = b.velocity ∧ c.isFixed = b.isFixed

theorem sameKin_refl (b : Body) : sameKin b b := ⟨rfl, rfl, rfl⟩

theorem sameKin_trans {a b c : Body} (h1 : sameKin a b) (h2 : sameKin b c) :
    sameKin a c :=
  ⟨h2.1.trans h1.1, h2.2.1.trans h1.2.1, h2.2.2.trans h1.2.2⟩

theorem applyGravity_sameKin (a b : Body) (G : ℝ) (a' : Body)
    (h : a.applyGravity b G = some a') : sameKin a a' := by
  unfold Body.applyGravity at h
  split at h
  · cases h
    exact sameKin_refl a
  · cases hn : (b.position - a.position).normalize with
    | none =>
      simp only [hn] at h
      cases h
    | some dirN =>
      simp only [hn, Option.some.injEq] at h
      subst h
      exact ⟨rfl, rfl, rfl⟩

theorem innerFold_sameKin (G : ℝ) (i : Nat) (bs : List Body) :
    ∀ (js : List Nat) (b0 r : Body),
      js.foldlM
        (fun (b : Body) j =>
          if i = j then some b
          else
            match bs[j]? with
            | none => some b
            | some bj => b.applyGravity bj G) b0 = some r →
      sameKin b0 r := by
  intro js
  induction js with
  | nil =>
    intro b0 r h
    simp only [List.foldlM_nil] at h
    cases h
    exact sameKin_refl b0
  | cons j js ih =>
    intro b0 r h
    simp only [List.foldlM_cons] at h
    by_cases hij : i = j
    · rw [if_pos hij] at h
      simp only [Option.bind_eq_bind, Option.some_bind] at h
      exact ih b0 r h
    · rw [if_neg hij] at h
      cases hjs : bs[j]? with
      | none =>
        simp only [hjs, Option.bind_eq_bind, Option.some_bind] at h
        exact ih b0 r h
      | some bj =>
        simp only [hjs] at h
        cases hag : b0.applyGravity bj G with
        | none =>
          rw [hag] at h
          simp only [Option.bind_eq_bind, Option.none_bind] at h
          cases h
        | some mid =>
          rw [hag] at h
          simp only [Option.bind_eq_bind, Option.some_bind] at h
          exact sameKin_trans (applyGravity_sameKin b0 bj G mid hag)
            (ih mid r h)

theorem outerFold_sameKin (G : ℝ) :
    ∀ (is : List Nat) (bs bs' : List Body),
      is.foldlM
        (fun (bs : List Body) i =>
          match bs[i]? with
          | none => some bs
          | some bi =>
            let bi0 := if bi.isFixed then bi
                       else { bi with acceleration := Vec3.zero }
            ((List.range bs.length).foldlM
                (fun (b : Body) j =>
                  if i = j then some b
                  else
                    match bs[j]? with
                    | none => some b
                    | some bj => b.applyGravity bj G)
                bi0).map
              fun b' => bs.set i b') bs = some bs' →
      bs'.length = bs.length ∧
        ∀ (k : Nat) (b : Body), bs[k]? = some b →
          ∃ b', bs'[k]? = some b' ∧ sameKin b b' := by
  intro is
  induction is with
  | nil =>
    intro bs bs' h
    simp only [List.foldlM_nil] at h
    cases h
    exact ⟨rfl, fun k b hk => ⟨b, hk, sameKin_refl b⟩⟩
  | cons i is ih =>
    intro bs bs' h
    simp only [List.foldlM_cons] at h
    cases hbi : bs[i]? with
    | none =>
      simp only [hbi, Option.bind_eq_bind, Option.some_bind] at h
      exact ih bs bs' h
    | some bi =>
      simp only [hbi] at h
      cases hin : ((List.range bs.length).foldlM
          (fun (b : Body) j =>
            if i = j then some b
            else
              match bs[j]? with
              | none => some b
              | some bj => b.applyGravity bj G)
          (if bi.isFixed then bi
           else { bi with acceleration := Vec3.zero })) with
      | none =>
        simp only [hin, Option.map_none', Option.bind_eq_bind,
          Option.none_bind] at h
        cases h
      | some bi' =>
        simp only [hin, Option.map_some', Option.bind_eq_bind,
          Option.some_bind] at h
        have hkin0 : sameKin bi
            (if bi.isFixed then bi
             else { bi with acceleration := Vec3.zero }) := by
          split
          · exact sameKin_refl bi
          · exact ⟨rfl, rfl, rfl⟩
        have hkin := sameKin_trans hkin0
          (innerFold_sameKin G i bs (List.range bs.length) _ bi' hin)
        obtain ⟨hlen, hall⟩ := ih (bs.set i bi') bs' h
        refine ⟨hlen.trans (by simp), ?_⟩
        intro k b hk
        by_cases hki : k = i
        · subst hki
          have hklt : k < bs.length := by
            by_contra hge
            rw [List.getElem?_eq_none (Nat.le_of_not_lt hge)] at hk
            cases hk
          have hset : (bs.set k bi')[k]? = some bi' :=
            List.getElem?_set_eq_of_lt bi' hklt
          obtain ⟨b'', hb'', hkin''⟩ := hall k bi' hset
          have hbbi : b = bi := by
            rw [hbi] at hk
            cases hk
            rfl
          subst hbbi
          exact ⟨b'', hb'', sameKin_trans hkin hkin''⟩
        · have hset : (bs.set i bi')[k]? = bs[k]? :=
            List.getElem?_set_ne (fun he => hki he.symm)
          obtain ⟨b'', hb'', hkin''⟩ := hall k b (hset.trans hk)
          exact ⟨b'', hb'', hkin''⟩

/-- All bodies keep their position, velocity and fixed flag through the
direct-mode force phase. -/
theorem updateGravityDirect_sameKin (G : ℝ) (bs bs' : List Body)
    (h : updateGravityDirect G bs = some bs') :
    bs'.length = bs.length ∧
      ∀ (k : Nat) (b : Body), bs[k]? = some b →
        ∃ b', bs'[k]? = some b' ∧ sameKin b b' := by
  unfold updateGravityDirect at h
  exact outerFold_sameKin G (List.range bs.length) bs bs' h

theorem postPhase_fixed (dt : ℝ) (bodies1 : List Body) (i : Nat)
    (b1 : Body) (hib : bodies1[i]? = some b1) (hfix : b1.isFixed = true) :
    ((bodies1.map fun b => b.update dt).map
        fun b => if b.isFixed then b else b.addTrajectoryPoint)[i]? =
      some { b1 with acceleration := Vec3.zero } := by
  rw [List.getElem?_map, List.getElem?_map, hib]
  simp only [Option.map_some']
  rw [show b1.update dt = { b1 with acceleration := Vec3.zero } from by
    unfold Body.update
    rw [hfix]
    simp]
  have hfix' : ({ b1 with acceleration := Vec3.zero } : Body).isFixed =
      true := hfix
  rw [if_pos hfix']

/-- One simulation tick keeps a fixed body's position and velocity (only
its acceleration is zeroed). -/
theorem simUpdate_fixed_step (s : SimState) (dt : ℝ) (s' : SimState)
    (h : s.update dt = some s') (i : Nat) (b : Body)
    (hib : s.bodies[i]? = some b) (hfix : b.isFixed = true) :
    ∃ b', s'.bodies[i]? = some b' ∧ b'.position = b.position ∧
      b'.velocity = b.velocity ∧ b'.isFixed = true := by
  unfold SimState.update at h
  split at h
  · cases h
    exact ⟨b, hib, rfl, rfl, hfix⟩
  · split at h
    · cases hg : updateGravityBarnesHut s.G s.bodies with
      | none =>
        rw [hg] at h
        simp only [Option.map_none'] at h
        cases h
      | some bodies1 =>
        rw [hg] at h
        simp only [Option.map_some', Option.some.injEq] at h
        subst h
        have hb1 : bodies1[i]? = some b :=
          updateGravityBarnesHut_fixed s.G s.bodies bodies1 hg i b hib hfix
        refine ⟨{ b with acceleration := Vec3.zero }, ?_, rfl, rfl, hfix⟩
        simp only [ge_iff_le, le_add_iff_nonneg_left, Nat.zero_le, if_pos]
        exact postPhase_fixed (dt * s.timeScale) bodies1 i b hb1 hfix
    · cases hg : updateGravityDirect s.G s.bodies with
      | none =>
        rw [hg] at h
        simp only [Option.map_none'] at h
        cases h
      | some bodies1 =>
        rw [hg] at h
        simp only [Option.map_some', Option.some.injEq] at h
        subst h
        obtain ⟨hlen, hall⟩ :=
          updateGravityDirect_sameKin s.G s.bodies bodies1 hg
        obtain ⟨b1, hb1, hpos, hvel, hfe⟩ := hall i b hib
        have hfix1 : b1.isFixed = true := hfe.trans hfix
        refine ⟨{ b1 with acceleration := Vec3.zero }, ?_, hpos, hvel,
          hfix1⟩
        simp only [ge_iff_le, le_add_iff_nonneg_left, Nat.zero_le, if_pos]
        exact postPhase_fixed (dt * s.timeScale) bodies1 i b1 hb1 hfix1

/-- C8: a fixed body's position and velocity are never changed by
integration, over any number of simulation ticks in either force mode,
whatever forces were accumulated. -/
theorem fixed_body_never_moves (n : Nat) (s : SimState) (dt : ℝ)
    (s' : SimState) (h : SimState.iterate n s dt = some s') (i : Nat)
    (b b' : Body) (hib : s.bodies[i]? = some b)
    (hib' : s'.bodies[i]? = some b') (hfix : b.isFixed = true) :
    b'.position = b.position ∧ b'.velocity = b.velocity := by
  induction n generalizing s b with
  | zero =>
    unfold SimState.iterate at h
    cases h
    rw [hib] at hib'
    cases hib'
    exact ⟨rfl, rfl⟩
  | succ n ih =>
    unfold SimState.iterate at h
    cases hu : s.update dt with
    | none =>
      rw [hu] at h
      cases h
    | some s1 =>
      rw [hu] at h
      obtain ⟨b1, hb1, hpos, hvel, hfix1⟩ :=
        simUpdate_fixed_step s dt s1 hu i b hib hfix
      obtain ⟨hp, hv⟩ := ih s1 h b1 hb1 hfix1
      exact ⟨hp.trans hpos, hv.trans hvel⟩

/-- Witness for C8: one direct-mode tick on a single fixed body. -/
theorem fixed_body_never_moves_witness :
    SimState.iterate 1
        ⟨[heavyBody], 1 / 10, false, 1, false, 0⟩ 1 =
      some ⟨[{ heavyBody with acceleration := Vec3.zero }], 1 / 10, false,
        1, false, 0⟩ ∧
    (⟨[heavyBody], 1 / 10, false, 1, false, 0⟩ :
      SimState).bodies[0]? = some heavyBody ∧
    (⟨[{ heavyBody with acceleration := Vec3.zero }], 1 / 10, false, 1,
      false, 0⟩ : SimState).bodies[0]? =
      some { heavyBody with acceleration := Vec3.zero } ∧
    heavyBody.isFixed = true ∧
    ({ heavyBody with acceleration := Vec3.zero } : Body).position =
      heavyBody.position ∧
    ({ heavyBody with acceleration := Vec3.zero } : Body).velocity =
      heavyBody.velocity := by
  have hstep : SimState.iterate 1
      (⟨[heavyBody], 1 / 10, false, 1, false, 0⟩ : SimState) 1 =
      some ⟨[{ heavyBody with acceleration := Vec3.zero }], 1 / 10, false,
        1, false, 0⟩ := rfl
  exact ⟨hstep, rfl, rfl, rfl,
    fixed_body_never_moves 1 _ 1 _ hstep 0 heavyBody
      { heavyBody with acceleration := Vec3.zero } rfl rfl rfl⟩

/-! Well-formedness of octrees as insertBody builds them, and aggregate
mass conservation. -/

/-- Invariants maintained by OctreeNode::insertBody on trees built from a
fresh node by inserting positive-mass contained bodies:
children-geometry, the depth cap, non-negative aggregates, occupant
coherence on leaves, and bottom-up mass coherence on internal nodes. -/
inductive WF : OctreeNode → Prop where
  | mk (t : OctreeNode)
      (hdepth : t.depth ≤ OCTREE_MAX_DEPTH)
      (hmass : 0 ≤ t.totalMass)
      (hleafkids : t.isLeaf = true → t.children = [])
      (hleafempty : t.isLeaf = true → t.body = none → t.totalMass = 0)
      (hocc : ∀ b : Body, t.isLeaf = true → t.body = some b →
        0 < b.mass ∧ t.contains b.position ∧
        (¬ (OCTREE_MAX_DEPTH ≤ t.depth ∨ t.size < OCTREE_MIN_SIZE) →
          t.totalMass = b.mass))
      (hnode : t.isLeaf = false →
        t.depth < OCTREE_MAX_DEPTH ∧ ¬ t.size < OCTREE_MIN_SIZE ∧
        t.children.length = 8 ∧ 0 < t.totalMass ∧
        t.totalMass = (t.children.map childMass).sum ∧
        ∀ (i : Nat) (c : OctreeNode), t.children[i]? = some c →
          c.center = t.getOctantCenter i ∧ c.size = t.size * 0.5 ∧
          c.depth = t.depth + 1)
      (hkids : t.isLeaf = false →
        ∀ (i : Nat) (c : OctreeNode), t.children[i]? = some c → WF c) :
      WF t

theorem WF.depth_le {t : OctreeNode} (h : WF t) :
    t.depth ≤ OCTREE_MAX_DEPTH := by
  cases h
  assumption

theorem WF.mass_nonneg {t : OctreeNode} (h : WF t) : 0 ≤ t.totalMass := by
  cases h
  assumption

theorem WF.leafkids {t : OctreeNode} (h : WF t) :
    t.isLeaf = true → t.children = [] := by
  cases h
  assumption

theorem WF.leafempty {t : OctreeNode} (h : WF t) :
    t.isLeaf = true → t.body = none → t.totalMass = 0 := by
  cases h
  assumption

theorem WF.occ {t : OctreeNode} (h : WF t) :
    ∀ b : Body, t.isLeaf = true → t.body = some b →
      0 < b.mass ∧ t.contains b.position ∧
      (¬ (OCTREE_MAX_DEPTH ≤ t.depth ∨ t.size < OCTREE_MIN_SIZE) →
        t.totalMass = b.mass) := by
  cases h
  assumption

theorem WF.node {t : OctreeNode} (h : WF t) :
    t.isLeaf = false →
      t.depth < OCTREE_MAX_DEPTH ∧ ¬ t.size < OCTREE_MIN_SIZE ∧
      t.children.length = 8 ∧ 0 < t.totalMass ∧
      t.totalMass = (t.children.map childMass).sum ∧
      ∀ (i : Nat) (c : OctreeNode), t.children[i]? = some c →
        c.center = t.getOctantCenter i ∧ c.size = t.size * 0.5 ∧
        c.depth = t.depth + 1 := by
  cases h
  assumption

theorem WF.kids {t : OctreeNode} (h : WF t) :
    t.isLeaf = false →
      ∀ (i : Nat) (c : OctreeNode), t.children[i]? = some c → WF c := by
  cases h
  assumption

theorem WF_new (c : Vec3) (s : ℝ) (d : Nat)
    (hd : d ≤ OCTREE_MAX_DEPTH) : WF (OctreeNode.new c s d) := by
  refine WF.mk _ hd le_rfl (fun _ => rfl) (fun _ _ => rfl) ?_ ?_ ?_
  · intro b _ hb
    cases hb
  · intro h
    cases h
  · intro h
    cases h

theorem setChild_fields (t : OctreeNode) (i : Nat) (c : OctreeNode) :
    (t.setChild i c).center = t.center ∧
    (t.setChild i c).size = t.size ∧
    (t.setChild i c).totalMass = t.totalMass ∧
    (t.setChild i c).centerOfMass = t.centerOfMass ∧
    (t.setChild i c).body = t.body ∧
    (t.setChild i c).isLeaf = t.isLeaf ∧
    (t.setChild i c).depth = t.depth ∧
    (t.setChild i c).children = t.children.set i c := by
  cases t
  exact ⟨rfl, rfl, rfl, rfl, rfl, rfl, rfl, rfl⟩

theorem subdivide_children_length (t : OctreeNode) :
    (t.subdivide).children.length = 8 := by
  show ((List.range 8).map _).length = 8
  rw [List.length_map, List.length_range]

theorem subdivide_children_getElem (t : OctreeNode) (i : Nat) (hi : i < 8) :
    (t.subdivide).children[i]? =
      some (OctreeNode.new (t.getOctantCenter i) (t.size * 0.5)
        (t.depth + 1)) := by
  show ((List.range 8).map fun i =>
    OctreeNode.new (t.getOctantCenter i) (t.size * 0.5) (t.depth + 1))[i]? = _
  rw [List.getElem?_map, List.getElem?_range hi]
  rfl

theorem childMass_new (c : Vec3) (s : ℝ) (d : Nat) :
    childMass (OctreeNode.new c s d) = 0 := by
  unfold childMass OctreeNode.new
  norm_num

theorem childMass_nonneg (c : OctreeNode) : 0 ≤ childMass c := by
  unfold childMass
  split
  · linarith [lt_of_lt_of_le (by norm_num : (0:ℝ) < 1) (le_refl 1)]
  · exact le_rfl

theorem sum_childMass_subdivide (t : OctreeNode) :
    (((t.subdivide).children).map childMass).sum = 0 := by
  show (((List.range 8).map fun i =>
    OctreeNode.new (t.getOctantCenter i) (t.size * 0.5)
      (t.depth + 1)).map childMass).sum = 0
  rw [List.map_map]
  have : (childMass ∘ fun i =>
      OctreeNode.new (t.getOctantCenter i) (t.size * 0.5) (t.depth + 1)) =
      fun _ => (0 : ℝ) := by
    funext i
    exact childMass_new _ _ _
  rw [this]
  simp

theorem sum_childMass_set (cs : List OctreeNode) :
    ∀ (i : Nat) (c ci : OctreeNode), cs[i]? = some ci →
      ((cs.set i c).map childMass).sum =
        (cs.map childMass).sum + childMass c - childMass ci := by
  induction cs with
  | nil =>
    intro i c ci hci
    simp at hci
  | cons a l ih =>
    intro i c ci hci
    cases i with
    | zero =>
      simp only [List.getElem?_cons_zero, Option.some.injEq] at hci
      subst hci
      simp only [List.set_cons_zero, List.map_cons, List.sum_cons]
      ring
    | succ n =>
      simp only [List.getElem?_cons_succ] at hci
      simp only [List.set_cons_succ, List.map_cons, List.sum_cons,
        ih n c ci hci]
      ring

theorem getOctant_congr (t t' : OctreeNode) (p : Vec3)
    (h : t'.center = t.center) : t'.getOctant p = t.getOctant p := by
  unfold OctreeNode.getOctant
  rw [h]

theorem contains_congr (t t' : OctreeNode) (p : Vec3)
    (hc : t'.center = t.center) (hs : t'.size = t.size) :
    t'.contains p ↔ t.contains p := by
  unfold OctreeNode.contains
  rw [hc, hs]

theorem getOctantCenter_congr (t t' : OctreeNode) (i : Nat)
    (hc : t'.center = t.center) (hs : t'.size = t.size) :
    t'.getOctantCenter i = t.getOctantCenter i := by
  unfold OctreeNode.getOctantCenter
  rw [hc, hs]

/-- insertBody never changes a node's center, size or depth. -/
theorem insertBody_geom :
    ∀ (fuel : Nat) (t : OctreeNode) (cb : Body),
      (OctreeNode.insertBody fuel t cb).center = t.center ∧
      (OctreeNode.insertBody fuel t cb).size = t.size ∧
      (OctreeNode.insertBody fuel t cb).depth = t.depth := by
  intro fuel t cb
  cases fuel with
  | zero => exact ⟨rfl, rfl, rfl⟩
  | succ fuel =>
    by_cases hc : t.contains cb.position
    · by_cases hm0 : t.totalMass = 0
      · rw [insertBody_empty fuel t cb hc hm0]
        exact ⟨rfl, rfl, rfl⟩
      · cases hleaf : t.isLeaf with
        | true =>
          cases hbody : t.body with
          | some b0 =>
            by_cases hdeg :
                OCTREE_MAX_DEPTH ≤ t.depth ∨ t.size < OCTREE_MIN_SIZE
            · rw [insertBody_merge fuel t cb b0 hc hm0 hleaf hbody hdeg]
              exact ⟨rfl, rfl, rfl⟩
            · rw [insertBody_split fuel t cb b0 hc hm0 hleaf hbody hdeg]
              dsimp only
              set s0 := (OctreeNode.mk t.center t.size t.totalMass
                t.centerOfMass t.children none false t.depth).subdivide
                with hs0def
              have hgeom : ∀ s1 : OctreeNode,
                  s1.center = t.center → s1.size = t.size →
                  s1.depth = t.depth →
                  ∀ s2 : OctreeNode,
                  (s2 = s1 ∨ ∃ i c, s2 = s1.setChild i c) →
                  s2.updateMassProperties.center = t.center ∧
                  s2.updateMassProperties.size = t.size ∧
                  s2.updateMassProperties.depth = t.depth := by
                intro s1 e1 e2 e3 s2 hcase
                obtain ⟨q1, q2, _, _, _, q6⟩ := updateMassProperties_fields s2
                rcases hcase with rfl | ⟨i, c, rfl⟩
                · exact ⟨q1.trans e1, q2.trans e2, q6.trans e3⟩
                · obtain ⟨r1, r2, _, _, _, _, r7, _⟩ := setChild_fields s1 i c
                  exact ⟨q1.trans (r1.trans e1), q2.trans (r2.trans e2),
                    q6.trans (r7.trans e3)⟩
              have hs0c : s0.center = t.center := rfl
              have hs0s : s0.size = t.size := rfl
              have hs0d : s0.depth = t.depth := rfl
              cases h1 : s0.children[s0.getOctant b0.position]? with
              | none =>
                cases h2 : s0.children[s0.getOctant cb.position]? with
                | none => exact hgeom s0 hs0c hs0s hs0d s0 (Or.inl rfl)
                | some c =>
                  exact hgeom s0 hs0c hs0s hs0d _ (Or.inr ⟨_, _, rfl⟩)
              | some c =>
                set s1 := s0.setChild (s0.getOctant b0.position)
                  (OctreeNode.insertBody fuel c b0) with hs1def
                obtain ⟨r1, r2, _, _, _, _, r7, _⟩ :=
                  setChild_fields s0 (s0.getOctant b0.position)
                    (OctreeNode.insertBody fuel c b0)
                have hs1c : s1.center = t.center := r1.trans hs0c
                have hs1s : s1.size = t.size := r2.trans hs0s
                have hs1d : s1.depth = t.depth := r7.trans hs0d
                cases h2 : s1.children[s1.getOctant cb.position]? with
                | none => exact hgeom s1 hs1c hs1s hs1d s1 (Or.inl rfl)
                | some c2 =>
                  exact hgeom s1 hs1c hs1s hs1d _ (Or.inr ⟨_, _, rfl⟩)
          | none =>
            rw [insertBody_leaf_nobody fuel t cb hc hm0 hleaf hbody]
            obtain ⟨q1, q2, _, _, _, q6⟩ := updateMassProperties_fields t
            exact ⟨q1, q2, q6⟩
        | false =>
          rw [insertBody_internal fuel t cb hc hm0 hleaf]
          obtain ⟨q1, q2, _, _, _, q6⟩ := updateMassProperties_fields
            (match t.children[t.getOctant cb.position]? with
              | some c => t.setChild (t.getOctant cb.position)
                  (OctreeNode.insertBody fuel c cb)
              | none => t)
          cases h1 : t.children[t.getOctant cb.position]? with
          | none =>
            simp only [h1] at q1 q2 q6
            exact ⟨q1, q2, q6⟩
          | some c =>
            simp only [h1] at q1 q2 q6
            obtain ⟨r1, r2, _, _, _, _, r7, _⟩ :=
              setChild_fields t (t.getOctant cb.position)
                (OctreeNode.insertBody fuel c cb)
            exact ⟨q1.trans r1, q2.trans r2, q6.trans r7⟩
    · rw [insertBody_reject fuel t cb hc]
      exact ⟨rfl, rfl, rfl⟩

/-- Inserting into one child and recomputing the aggregates adds exactly
the inserted mass to an internal node, preserving well-formedness. -/
theorem internal_step (t : OctreeNode) (o : Nat) (c c' : OctreeNode)
    (dm : ℝ) (hwf : WF t) (hleaf : t.isLeaf = false)
    (hco : t.children[o]? = some c)
    (hmass' : c'.totalMass = c.totalMass + dm) (hdm : 0 < dm)
    (hwf' : WF c') (hgc : c'.center = c.center) (hgs : c'.size = c.size)
    (hgd : c'.depth = c.depth) :
    ((t.setChild o c').updateMassProperties).totalMass =
      t.totalMass + dm ∧
    WF ((t.setChild o c').updateMassProperties) ∧
    ((t.setChild o c').updateMassProperties).isLeaf = false := by
  obtain ⟨hd, hsz, hlen8, hpos, hsum, hchild⟩ := hwf.node hleaf
  have hkids := hwf.kids hleaf
  obtain ⟨x1, x2, x3, x4, x5, x6, x7, x8⟩ := setChild_fields t o c'
  obtain ⟨q1, q2, q3, q4, q5, q6⟩ :=
    updateMassProperties_fields (t.setChild o c')
  have hXleaf : (t.setChild o c').isLeaf = false := x6.trans hleaf
  have hYleaf : ((t.setChild o c').updateMassProperties).isLeaf = false :=
    q5.trans hXleaf
  have hcmass : 0 ≤ c.totalMass := (hkids o c hco).mass_nonneg
  have hcm' : childMass c' = c.totalMass + dm := by
    unfold childMass
    rw [hmass', if_pos (by linarith)]
  have hsum' : (((t.setChild o c').children).map childMass).sum =
      t.totalMass + dm := by
    rw [x8, sum_childMass_set t.children o c' c hco, hcm', ← hsum]
    unfold childMass
    split
    · ring
    · have : c.totalMass = 0 := le_antisymm (not_lt.mp (by assumption)) hcmass
      rw [this]
      ring
  have hYmass : ((t.setChild o c').updateMassProperties).totalMass =
      t.totalMass + dm := by
    rw [updateMassProperties_internal_totalMass _ hXleaf, hsum']
  refine ⟨hYmass, ?_, hYleaf⟩
  refine WF.mk _ ?_ ?_ ?_ ?_ ?_ ?_ ?_
  · rw [q6, x7]
    exact hwf.depth_le
  · rw [hYmass]
    linarith
  · intro hl
    rw [hYleaf] at hl
    cases hl
  · intro hl
    rw [hYleaf] at hl
    cases hl
  · intro b hl
    rw [hYleaf] at hl
    cases hl
  · intro _
    refine ⟨by rw [q6, x7]; exact hd, by rw [q2, x2]; exact hsz, ?_, ?_,
      ?_, ?_⟩
    · rw [q3, x8, List.length_set]
      exact hlen8
    · rw [hYmass]
      linarith
    · rw [hYmass, q3, hsum']
    · intro i ci hci
      rw [q3, x8] at hci
      have hoct : ((t.setChild o c').updateMassProperties).getOctantCenter
          i = t.getOctantCenter i :=
        getOctantCenter_congr t _ i (q1.trans x1) (q2.trans x2)
      rw [hoct, q2, x2, q6, x7]
      by_cases hio : i = o
      · subst hio
        have hilt : i < t.children.length := by
          by_contra hge
          rw [List.getElem?_set_self', List.getElem?_eq_none
            (Nat.le_of_not_lt hge)] at hci
          simp at hci
        rw [List.getElem?_set_eq_of_lt c' hilt] at hci
        cases hci
        obtain ⟨g1, g2, g3⟩ := hchild i c hco
        exact ⟨hgc.trans g1, hgs.trans g2, hgd.trans g3⟩
      · rw [List.getElem?_set_ne (fun he => hio he.symm)] at hci
        exact hchild i ci hci
  · intro _ i ci hci
    rw [q3, x8] at hci
    by_cases hio : i = o
    · subst hio
      have hilt : i < t.children.length := by
        by_contra hge
        rw [List.getElem?_set_self', List.getElem?_eq_none
          (Nat.le_of_not_lt hge)] at hci
        simp at hci
      rw [List.getElem?_set_eq_of_lt c' hilt] at hci
      cases hci
      exact hwf'
    · rw [List.getElem?_set_ne (fun he => hio he.symm)] at hci
      exact hkids i ci hci

/-- Recomputing the aggregates of an internal node whose children are
geometrically coherent and well-formed yields a well-formed node with the
children's summed mass. -/
theorem assemble_wf (t X : OctreeNode) (m : ℝ)
    (hXc : X.center = t.center) (hXs : X.size = t.size)
    (hXd : X.depth = t.depth) (hXl : X.isLeaf = false)
    (hXlen : X.children.length = 8)
    (hdlt : t.depth < OCTREE_MAX_DEPTH)
    (hszge : ¬ t.size < OCTREE_MIN_SIZE)
    (hsum : (X.children.map childMass).sum = m) (hmpos : 0 < m)
    (hgeo : ∀ (i : Nat) (ci : OctreeNode), X.children[i]? = some ci →
      ci.center = t.getOctantCenter i ∧ ci.size = t.size * 0.5 ∧
      ci.depth = t.depth + 1)
    (hwfk : ∀ (i : Nat) (ci : OctreeNode), X.children[i]? = some ci →
      WF ci) :
    X.updateMassProperties.totalMass = m ∧ WF X.updateMassProperties ∧
    X.updateMassProperties.isLeaf = false := by
  obtain ⟨q1, q2, q3, q4, q5, q6⟩ := updateMassProperties_fields X
  have hYleaf : X.updateMassProperties.isLeaf = false := q5.trans hXl
  have hYmass : X.updateMassProperties.totalMass = m := by
    rw [updateMassProperties_internal_totalMass _ hXl, hsum]
  refine ⟨hYmass, ?_, hYleaf⟩
  refine WF.mk _ ?_ ?_ ?_ ?_ ?_ ?_ ?_
  · rw [q6, hXd]
    exact Nat.le_of_lt hdlt
  · rw [hYmass]
    linarith
  · intro hl
    rw [hYleaf] at hl
    cases hl
  · intro hl
    rw [hYleaf] at hl
    cases hl
  · intro b hl
    rw [hYleaf] at hl
    cases hl
  · intro _
    refine ⟨by rw [q6, hXd]; exact hdlt, by rw [q2, hXs]; exact hszge,
      by rw [q3]; exact hXlen, by rw [hYmass]; exact hmpos,
      by rw [hYmass, q3, hsum], ?_⟩
    intro i ci hci
    rw [q3] at hci
    obtain ⟨g1, g2, g3⟩ := hgeo i ci hci
    have hoct : X.updateMassProperties.getOctantCenter i =
        t.getOctantCenter i :=
      getOctantCenter_congr t _ i (q1.trans hXc) (q2.trans hXs)
    rw [hoct, q2, hXs, q6, hXd]
    exact ⟨g1, g2, g3⟩
  · intro _ i ci hci
    rw [q3] at hci
    exact hwfk i ci hci

/-- Subdividing, writing two children and recomputing aggregates yields
a well-formed internal node carrying the children's summed mass. -/
theorem two_set_wf (t tM : OctreeNode) (eo no : Nat) (c1 cN : OctreeNode)
    (m : ℝ)
    (eC : tM.center = t.center) (eS : tM.size = t.size)
    (eD : tM.depth = t.depth) (eL : tM.isLeaf = false)
    (hdlt : t.depth < OCTREE_MAX_DEPTH)
    (hszge : ¬ t.size < OCTREE_MIN_SIZE)
    (hc1c : c1.center = t.getOctantCenter eo)
    (hc1s : c1.size = t.size * 0.5) (hc1d : c1.depth = t.depth + 1)
    (hc1wf : WF c1)
    (hcNc : cN.center = t.getOctantCenter no)
    (hcNs : cN.size = t.size * 0.5) (hcNd : cN.depth = t.depth + 1)
    (hcNwf : WF cN)
    (hsum : ((((tM.subdivide.children.set eo c1).set no cN).map
      childMass)).sum = m)
    (hmp : 0 < m) :
    (((tM.subdivide.setChild eo c1).setChild no
      cN).updateMassProperties).totalMass = m ∧
    WF (((tM.subdivide.setChild eo c1).setChild no
      cN).updateMassProperties) := by
  obtain ⟨y1, y2, _, _, _, y6, y7, y8⟩ :=
    setChild_fields (tM.subdivide) eo c1
  obtain ⟨z1, z2, _, _, _, z6, z7, z8⟩ :=
    setChild_fields (tM.subdivide.setChild eo c1) no cN
  have hs0c : tM.subdivide.center = tM.center := rfl
  have hs0s : tM.subdivide.size = tM.size := rfl
  have hs0d : tM.subdivide.depth = tM.depth := rfl
  have hs0l : tM.subdivide.isLeaf = tM.isLeaf := rfl
  have hXc : ((tM.subdivide.setChild eo c1).setChild no cN).center =
      t.center := z1.trans (y1.trans (hs0c.trans eC))
  have hXs : ((tM.subdivide.setChild eo c1).setChild no cN).size =
      t.size := z2.trans (y2.trans (hs0s.trans eS))
  have hXd : ((tM.subdivide.setChild eo c1).setChild no cN).depth =
      t.depth := z7.trans (y7.trans (hs0d.trans eD))
  have hXl : ((tM.subdivide.setChild eo c1).setChild no cN).isLeaf =
      false := z6.trans (y6.trans (hs0l.trans eL))
  have hXkids : ((tM.subdivide.setChild eo c1).setChild no cN).children =
      (tM.subdivide.children.set eo c1).set no cN := by
    rw [z8, y8]
  refine (assemble_wf t _ m hXc hXs hXd hXl ?_ hdlt hszge ?_ hmp ?_
    ?_).imp id fun hh => hh.1
  · rw [hXkids, List.length_set, List.length_set,
      subdivide_children_length]
  · rw [hXkids, hsum]
  · intro i ci hci
    rw [hXkids] at hci
    by_cases hino : i = no
    · subst hino
      have hilt : i < ((tM.subdivide.children.set eo c1)).length := by
        by_contra hge
        rw [List.getElem?_set_self', List.getElem?_eq_none
          (Nat.le_of_not_lt hge)] at hci
        simp at hci
      rw [List.getElem?_set_eq_of_lt cN hilt] at hci
      cases hci
      exact ⟨hcNc, hcNs, hcNd⟩
    · rw [List.getElem?_set_ne (fun he => hino he.symm)] at hci
      by_cases hieo : i = eo
      · subst hieo
        have hilt : i < (tM.subdivide.children).length := by
          by_contra hge
          rw [List.getElem?_set_self', List.getElem?_eq_none
            (Nat.le_of_not_lt hge)] at hci
          simp at hci
        rw [List.getElem?_set_eq_of_lt c1 hilt] at hci
        cases hci
        exact ⟨hc1c, hc1s, hc1d⟩
      · rw [List.getElem?_set_ne (fun he => hieo he.symm)] at hci
        have hi8 : i < 8 := by
          by_contra hge
          rw [List.getElem?_eq_none (by
            rw [subdivide_children_length]
            exact Nat.le_of_not_lt hge)] at hci
          cases hci
        rw [subdivide_children_getElem tM i hi8] at hci
        cases hci
        refine ⟨?_, ?_, ?_⟩
        · show tM.getOctantCenter i = t.getOctantCenter i
          exact getOctantCenter_congr t tM i eC eS
        · show tM.size * 0.5 = t.size * 0.5
          rw [eS]
        · show tM.depth + 1 = t.depth + 1
          rw [eD]
  · intro i ci hci
    rw [hXkids] at hci
    by_cases hino : i = no
    · subst hino
      have hilt : i < ((tM.subdivide.children.set eo c1)).length := by
        by_contra hge
        rw [List.getElem?_set_self', List.getElem?_eq_none
          (Nat.le_of_not_lt hge)] at hci
        simp at hci
      rw [List.getElem?_set_eq_of_lt cN hilt] at hci
      cases hci
      exact hcNwf
    · rw [List.getElem?_set_ne (fun he => hino he.symm)] at hci
      by_cases hieo : i = eo
      · subst hieo
        have hilt : i < (tM.subdivide.children).length := by
          by_contra hge
          rw [List.getElem?_set_self', List.getElem?_eq_none
            (Nat.le_of_not_lt hge)] at hci
          simp at hci
        rw [List.getElem?_set_eq_of_lt c1 hilt] at hci
        cases hci
        exact hc1wf
      · rw [List.getElem?_set_ne (fun he => hieo he.symm)] at hci
        have hi8 : i < 8 := by
          by_contra hge
          rw [List.getElem?_eq_none (by
            rw [subdivide_children_length]
            exact Nat.le_of_not_lt hge)] at hci
          cases hci
        rw [subdivide_children_getElem tM i hi8] at hci
        cases hci
        exact WF_new _ _ _ (by
          rw [eD]
          omega)

/-- The leaf-subdivision branch of insertBody: both the previous occupant
and the new body are reinserted into the fresh children, and the
recomputed aggregate grows by exactly the inserted mass. -/
theorem split_step (fuel : Nat) (t : OctreeNode) (cb b0 : Body)
    (hwf : WF t) (hc : t.contains cb.position) (hm : 0 < cb.mass)
    (hm0 : ¬ t.totalMass = 0) (hleaf : t.isLeaf = true)
    (hbody : t.body = some b0)
    (hdeg : ¬ (OCTREE_MAX_DEPTH ≤ t.depth ∨ t.size < OCTREE_MIN_SIZE))
    (IH : ∀ (c : OctreeNode) (b : Body), WF c → c.contains b.position →
      0 < b.mass → OCTREE_MAX_DEPTH + 2 - c.depth ≤ fuel →
      (OctreeNode.insertBody fuel c b).totalMass = c.totalMass + b.mass ∧
      WF (OctreeNode.insertBody fuel c b) ∧
      (OctreeNode.insertBody fuel c b).center = c.center ∧
      (OctreeNode.insertBody fuel c b).size = c.size ∧
      (OctreeNode.insertBody fuel c b).depth = c.depth)
    (hfuel : OCTREE_MAX_DEPTH + 2 - t.depth ≤ fuel + 1) :
    (OctreeNode.insertBody (fuel + 1) t cb).totalMass =
      t.totalMass + cb.mass ∧
    WF (OctreeNode.insertBody (fuel + 1) t cb) := by
  have hdlt : t.depth < OCTREE_MAX_DEPTH :=
    Nat.lt_of_not_le fun hle => hdeg (Or.inl hle)
  have hszge : ¬ t.size < OCTREE_MIN_SIZE := fun hs => hdeg (Or.inr hs)
  obtain ⟨hb0m, hb0c, hb0tm⟩ := hwf.occ b0 hleaf hbody
  have htm : t.totalMass = b0.mass := hb0tm hdeg
  have hfuel' : ∀ d : Nat, d = t.depth + 1 →
      OCTREE_MAX_DEPTH + 2 - d ≤ fuel := by
    intro d hd
    omega
  rw [insertBody_split fuel t cb b0 hc hm0 hleaf hbody hdeg]
  dsimp only
  generalize htM : OctreeNode.mk t.center t.size t.totalMass t.centerOfMass
    t.children none false t.depth = tM
  have eC : tM.center = t.center := by
    rw [← htM]
    rfl
  have eS : tM.size = t.size := by
    rw [← htM]
    rfl
  have eD : tM.depth = t.depth := by
    rw [← htM]
    rfl
  have hs0c : tM.subdivide.center = tM.center := rfl
  have hs0s : tM.subdivide.size = tM.size := rfl
  have hs0d : tM.subdivide.depth = tM.depth := rfl
  have hs0l : tM.subdivide.isLeaf = tM.isLeaf := rfl
  have hs0lf : tM.subdivide.isLeaf = false := by
    rw [hs0l, ← htM]
    rfl
  have heo8 : tM.subdivide.getOctant b0.position < 8 :=
    getOctant_lt_8 _ _
  have heot : tM.subdivide.getOctant b0.position =
      t.getOctant b0.position :=
    getOctant_congr t _ _ (hs0c.trans eC)
  have hfreq : ∀ i : Nat, i < 8 → tM.subdivide.children[i]? =
      some (OctreeNode.new (t.getOctantCenter i) (t.size * 0.5)
        (t.depth + 1)) := by
    intro i hi
    rw [subdivide_children_getElem tM i hi,
      getOctantCenter_congr t tM i eC eS, eS, eD]
  have hfwf : ∀ i : Nat, WF (OctreeNode.new (t.getOctantCenter i)
      (t.size * 0.5) (t.depth + 1)) :=
    fun i => WF_new _ _ _ (by omega)
  -- the occupant's reinsertion target child
  have hfc1 : (OctreeNode.new
      (t.getOctantCenter (t.getOctant b0.position)) (t.size * 0.5)
      (t.depth + 1)).contains b0.position :=
    contains_of_octant t _ b0.position rfl rfl hb0c
  obtain ⟨ih1m, ih1wf, ih1c, ih1s, ih1d⟩ :=
    IH (OctreeNode.new (t.getOctantCenter (t.getOctant b0.position))
        (t.size * 0.5) (t.depth + 1)) b0
      (hfwf _) hfc1 hb0m (hfuel' _ (by rfl))
  rw [hfreq _ heo8, heot]
  dsimp only
  have heo8' : t.getOctant b0.position < 8 := heot ▸ heo8
  have hno8 : t.getOctant cb.position < 8 := getOctant_lt_8 t cb.position
  have eLM : tM.isLeaf = false := by
    rw [← htM]
    rfl
  set c1 := OctreeNode.insertBody fuel
    (OctreeNode.new (t.getOctantCenter (t.getOctant b0.position))
      (t.size * 0.5) (t.depth + 1)) b0 with hc1def
  have hc1m : c1.totalMass = b0.mass := by
    rw [ih1m]
    show (0 : ℝ) + b0.mass = b0.mass
    ring
  have hc1c : c1.center = t.getOctantCenter (t.getOctant b0.position) :=
    ih1c
  have hc1s : c1.size = t.size * 0.5 := ih1s
  have hc1d : c1.depth = t.depth + 1 := ih1d
  have hc1cm : childMass c1 = b0.mass := by
    unfold childMass
    rw [hc1m, if_pos hb0m]
  have hs1kids :
      (tM.subdivide.setChild (t.getOctant b0.position) c1).children =
        tM.subdivide.children.set (t.getOctant b0.position) c1 :=
    (setChild_fields (tM.subdivide) (t.getOctant b0.position) c1
      ).2.2.2.2.2.2.2
  have hs1c :
      (tM.subdivide.setChild (t.getOctant b0.position) c1).center =
        t.center :=
    ((setChild_fields (tM.subdivide) (t.getOctant b0.position) c1).1).trans
      eC
  have hs1go :
      (tM.subdivide.setChild (t.getOctant b0.position) c1).getOctant
        cb.position = t.getOctant cb.position :=
    getOctant_congr t _ cb.position hs1c
  rw [hs1go]
  have base0 : ((tM.subdivide.children).map childMass).sum = 0 :=
    sum_childMass_subdivide tM
  have hfr_eo : tM.subdivide.children[t.getOctant b0.position]? =
      some (OctreeNode.new (t.getOctantCenter (t.getOctant b0.position))
        (t.size * 0.5) (t.depth + 1)) := hfreq _ heo8'
  have step1 :
      (((tM.subdivide.children).set (t.getOctant b0.position) c1).map
        childMass).sum = b0.mass := by
    rw [sum_childMass_set _ _ _ _ hfr_eo, base0, childMass_new, hc1cm]
    ring
  have hlen8' : t.getOctant b0.position < tM.subdivide.children.length := by
    rw [subdivide_children_length]
    exact heo8'
  by_cases hee : t.getOctant cb.position = t.getOctant b0.position
  · -- the new body lands in the same octant as the reinserted occupant
    have hs1get :
        (tM.subdivide.setChild (t.getOctant b0.position)
          c1).children[t.getOctant cb.position]? = some c1 := by
      rw [hs1kids, hee]
      exact List.getElem?_set_eq_of_lt c1 hlen8'
    rw [hs1get]
    dsimp only
    have hccontains : c1.contains cb.position := by
      refine contains_of_octant t c1 cb.position ?_ hc1s hc
      rw [hc1c, hee]
    obtain ⟨ih2m, ih2wf, ih2c, ih2s, ih2d⟩ :=
      IH c1 cb ih1wf hccontains hm (hfuel' c1.depth hc1d)
    have hcNm : (OctreeNode.insertBody fuel c1 cb).totalMass =
        b0.mass + cb.mass := by
      rw [ih2m, hc1m]
    have hcNcm : childMass (OctreeNode.insertBody fuel c1 cb) =
        b0.mass + cb.mass := by
      unfold childMass
      rw [hcNm, if_pos (by linarith)]
    have hin1 :
        ((tM.subdivide.children).set (t.getOctant b0.position)
          c1)[t.getOctant b0.position]? = some c1 :=
      List.getElem?_set_eq_of_lt c1 hlen8'
    have hsumfinal :
        ((((tM.subdivide.children).set (t.getOctant b0.position) c1).set
          (t.getOctant cb.position) (OctreeNode.insertBody fuel c1
            cb)).map childMass).sum = b0.mass + cb.mass := by
      rw [hee, sum_childMass_set _ _ _ _ hin1, step1, hcNcm, hc1cm]
      ring
    obtain ⟨w1, w2⟩ := two_set_wf t tM (t.getOctant b0.position)
      (t.getOctant cb.position) c1 (OctreeNode.insertBody fuel c1 cb)
      (b0.mass + cb.mass) eC eS eD eLM hdlt hszge hc1c hc1s hc1d ih1wf
      (by rw [ih2c, hc1c, hee]) (ih2s.trans hc1s) (ih2d.trans hc1d) ih2wf
      hsumfinal (by linarith)
    refine ⟨?_, w2⟩
    rw [w1, htm]
  · -- distinct octants: the new body lands in a fresh child
    have hs1get :
        (tM.subdivide.setChild (t.getOctant b0.position)
          c1).children[t.getOctant cb.position]? =
        some (OctreeNode.new (t.getOctantCenter (t.getOctant cb.position))
          (t.size * 0.5) (t.depth + 1)) := by
      rw [hs1kids, List.getElem?_set_ne (fun he => hee he.symm),
        hfreq _ hno8]
    rw [hs1get]
    dsimp only
    have hfcN : (OctreeNode.new
        (t.getOctantCenter (t.getOctant cb.position)) (t.size * 0.5)
        (t.depth + 1)).contains cb.position :=
      contains_of_octant t _ cb.position rfl rfl hc
    obtain ⟨ih2m, ih2wf, ih2c, ih2s, ih2d⟩ :=
      IH (OctreeNode.new (t.getOctantCenter (t.getOctant cb.position))
          (t.size * 0.5) (t.depth + 1)) cb
        (hfwf _) hfcN hm (hfuel' _ (by rfl))
    have hcNm : (OctreeNode.insertBody fuel
        (OctreeNode.new (t.getOctantCenter (t.getOctant cb.position))
          (t.size * 0.5) (t.depth + 1)) cb).totalMass = cb.mass := by
      rw [ih2m]
      show (0 : ℝ) + cb.mass = cb.mass
      ring
    have hcNcm : childMass (OctreeNode.insertBody fuel
        (OctreeNode.new (t.getOctantCenter (t.getOctant cb.position))
          (t.size * 0.5) (t.depth + 1)) cb) = cb.mass := by
      unfold childMass
      rw [hcNm, if_pos hm]
    have hinoB :
        ((tM.subdivide.children).set (t.getOctant b0.position)
          c1)[t.getOctant cb.position]? =
        some (OctreeNode.new (t.getOctantCenter (t.getOctant cb.position))
          (t.size * 0.5) (t.depth + 1)) := by
      rw [List.getElem?_set_ne (fun he => hee he.symm), hfreq _ hno8]
    have hsumfinal :
        ((((tM.subdivide.children).set (t.getOctant b0.position) c1).set
          (t.getOctant cb.position) (OctreeNode.insertBody fuel
            (OctreeNode.new (t.getOctantCenter (t.getOctant cb.position))
              (t.size * 0.5) (t.depth + 1)) cb)).map childMass).sum =
        b0.mass + cb.mass := by
      rw [sum_childMass_set _ _ _ _ hinoB, step1, hcNcm, childMass_new]
      ring
    obtain ⟨w1, w2⟩ := two_set_wf t tM (t.getOctant b0.position)
      (t.getOctant cb.position) c1 (OctreeNode.insertBody fuel
        (OctreeNode.new (t.getOctantCenter (t.getOctant cb.position))
          (t.size * 0.5) (t.depth + 1)) cb)
      (b0.mass + cb.mass) eC eS eD eLM hdlt hszge hc1c hc1s hc1d ih1wf
      (ih2c.trans rfl) (ih2s.trans rfl) (ih2d.trans rfl) ih2wf
      hsumfinal (by linarith)
    refine ⟨?_, w2⟩
    rw [w1, htm]

/-- Inserting a positive-mass body contained in a well-formed node grows
the node's aggregate mass by exactly that body's mass (given enough fuel
for the C++ recursion, which the depth cap bounds). -/
theorem insertBody_mass_wf :
    ∀ (fuel : Nat) (t : OctreeNode) (cb : Body),
      WF t → t.contains cb.position → 0 < cb.mass →
      OCTREE_MAX_DEPTH + 2 - t.depth ≤ fuel →
      (OctreeNode.insertBody fuel t cb).totalMass =
        t.totalMass + cb.mass ∧
      WF (OctreeNode.insertBody fuel t cb) := by
  intro fuel
  induction fuel with
  | zero =>
    intro t cb hwf hc hm hfuel
    exfalso
    have hd := hwf.depth_le
    omega
  | succ fuel ih =>
    intro t cb hwf hc hm hfuel
    by_cases hm0 : t.totalMass = 0
    · rw [insertBody_empty fuel t cb hc hm0]
      have hleaf : t.isLeaf = true := by
        cases hbl : t.isLeaf
        · exact absurd ((hwf.node hbl).2.2.2.1)
            (by rw [hm0]; exact lt_irrefl 0)
        · rfl
      constructor
      · show cb.mass = t.totalMass + cb.mass
        rw [hm0]
        ring
      · refine WF.mk _ ?_ ?_ ?_ ?_ ?_ ?_ ?_
        · show t.depth ≤ OCTREE_MAX_DEPTH
          exact hwf.depth_le
        · show (0 : ℝ) ≤ cb.mass
          exact le_of_lt hm
        · intro _
          show t.children = []
          exact hwf.leafkids hleaf
        · intro _ hb
          cases hb
        · intro b _ hb
          have hbc : cb = b := by
            cases hb
            rfl
          subst hbc
          refine ⟨hm, ?_, fun _ => rfl⟩
          exact (contains_congr t _ cb.position rfl rfl).mpr hc
        · intro hq
          cases hq
        · intro hq
          cases hq
    · cases hleafb : t.isLeaf with
      | true =>
        cases hbody : t.body with
        | some b0 =>
          by_cases hdeg :
              OCTREE_MAX_DEPTH ≤ t.depth ∨ t.size < OCTREE_MIN_SIZE
          · rw [insertBody_merge fuel t cb b0 hc hm0 hleafb hbody hdeg]
            obtain ⟨hb0m, hb0c, _⟩ := hwf.occ b0 hleafb hbody
            refine ⟨rfl, ?_⟩
            refine WF.mk _ ?_ ?_ ?_ ?_ ?_ ?_ ?_
            · show t.depth ≤ OCTREE_MAX_DEPTH
              exact hwf.depth_le
            · show (0 : ℝ) ≤ t.totalMass + cb.mass
              have := hwf.mass_nonneg
              linarith
            · intro _
              show t.children = []
              exact hwf.leafkids hleafb
            · intro _ hb
              show t.totalMass + cb.mass = 0
              rw [show (OctreeNode.mk t.center t.size
                (t.totalMass + cb.mass) _ t.children t.body t.isLeaf
                t.depth).body = t.body from rfl, hbody] at hb
              cases hb
            · intro b _ hb
              rw [show (OctreeNode.mk t.center t.size
                (t.totalMass + cb.mass) _ t.children t.body t.isLeaf
                t.depth).body = t.body from rfl, hbody] at hb
              have hb0b : b0 = b := by
                cases hb
                rfl
              subst hb0b
              refine ⟨hb0m, ?_, ?_⟩
              · exact (contains_congr t _ b0.position rfl rfl).mpr hb0c
              · intro hnd
                exact absurd hdeg hnd
            · intro hq
              show t.depth < OCTREE_MAX_DEPTH ∧ _
              rw [show (OctreeNode.mk t.center t.size
                (t.totalMass + cb.mass) _ t.children t.body t.isLeaf
                t.depth).isLeaf = t.isLeaf from rfl, hleafb] at hq
              cases hq
            · intro hq
              rw [show (OctreeNode.mk t.center t.size
                (t.totalMass + cb.mass) _ t.children t.body t.isLeaf
                t.depth).isLeaf = t.isLeaf from rfl, hleafb] at hq
              cases hq
          · refine split_step fuel t cb b0 hwf hc hm hm0 hleafb hbody hdeg
              ?_ hfuel
            intro c b h1 h2 h3 h4
            obtain ⟨hmm, hww⟩ := ih c b h1 h2 h3 h4
            obtain ⟨g1, g2, g3⟩ := insertBody_geom fuel c b
            exact ⟨hmm, hww, g1, g2, g3⟩
        | none =>
          exact absurd (hwf.leafempty hleafb hbody) hm0
      | false =>
        rw [insertBody_internal fuel t cb hc hm0 hleafb]
        obtain ⟨hd, hsz, hlen8, hpos, hsum, hchild⟩ := hwf.node hleafb
        have hkids := hwf.kids hleafb
        have ho8 : t.getOctant cb.position < 8 := getOctant_lt_8 t _
        cases hco : t.children[t.getOctant cb.position]? with
        | none =>
          exfalso
          rw [List.getElem?_eq_none_iff] at hco
          omega
        | some c =>
          obtain ⟨g1, g2, g3⟩ := hchild _ c hco
          have hcwf : WF c := hkids _ c hco
          have hccont : c.contains cb.position :=
            contains_of_octant t c cb.position g1 g2 hc
          obtain ⟨im, iw⟩ := ih c cb hcwf hccont hm (by
            rw [g3]
            omega)
          obtain ⟨e1, e2, e3⟩ := insertBody_geom fuel c cb
          have hres := internal_step t (t.getOctant cb.position) c
            (OctreeNode.insertBody fuel c cb) cb.mass hwf hleafb hco im hm
            iw e1 e2 e3
          exact ⟨hres.1, hres.2.1⟩

theorem foldl_insert_mass (bodies : List Body) :
    ∀ (t : OctreeNode), WF t →
      (∀ b ∈ bodies, t.contains b.position) →
      (∀ b ∈ bodies, 0 < b.mass) →
      (bodies.foldl (fun t b => OctreeNode.insertBody INSERT_FUEL t b)
        t).totalMass = t.totalMass + (bodies.map Body.mass).sum ∧
      WF (bodies.foldl (fun t b => OctreeNode.insertBody INSERT_FUEL t b)
        t) ∧
      (bodies.foldl (fun t b => OctreeNode.insertBody INSERT_FUEL t b)
        t).center = t.center ∧
      (bodies.foldl (fun t b => OctreeNode.insertBody INSERT_FUEL t b)
        t).size = t.size ∧
      (bodies.foldl (fun t b => OctreeNode.insertBody INSERT_FUEL t b)
        t).depth = t.depth := by
  induction bodies with
  | nil =>
    intro t hwf _ _
    rw [List.foldl_nil, List.map_nil, List.sum_nil]
    exact ⟨by ring, hwf, rfl, rfl, rfl⟩
  | cons b bs ih =>
    intro t hwf hcs hms
    simp only [List.foldl_cons, List.map_cons, List.sum_cons]
    obtain ⟨hm1, hwf1⟩ := insertBody_mass_wf INSERT_FUEL t b hwf
      (hcs b (List.mem_cons_self b bs))
      (hms b (List.mem_cons_self b bs))
      (by unfold INSERT_FUEL; omega)
    obtain ⟨g1, g2, g3⟩ := insertBody_geom INSERT_FUEL t b
    obtain ⟨q1, q2, q3, q4, q5⟩ := ih (OctreeNode.insertBody INSERT_FUEL t
        b) hwf1
      (fun b' hb' => (contains_congr t _ b'.position g1 g2).mpr
        (hcs b' (List.mem_cons_of_mem b hb')))
      (fun b' hb' => hms b' (List.mem_cons_of_mem b hb'))
    refine ⟨?_, q2, q3.trans g1, q4.trans g2, q5.trans g3⟩
    rw [q1, hm1]
    ring

theorem buildOctreeRoot_size_ge (bodies : List Body) :
    (100 : ℝ) ≤ (buildOctreeRoot bodies).size := by
  have h1 : ∀ x : ℝ, (10000 : ℝ) ≤ x → (100 : ℝ) ≤ Real.sqrt x := by
    intro x hx
    have h2 : Real.sqrt 10000 ≤ Real.sqrt x := Real.sqrt_le_sqrt hx
    rwa [show (10000 : ℝ) = 100 ^ 2 by norm_num,
      Real.sqrt_sq (by norm_num : (0:ℝ) ≤ 100)] at h2
  unfold buildOctreeRoot calculateBounds
  dsimp only
  split
  · show (100 : ℝ) ≤
      ((⟨1000, 1000, 1000⟩ : Vec3) - ⟨-1000, -1000, -1000⟩).length
    rw [show ((⟨1000, 1000, 1000⟩ : Vec3) - ⟨-1000, -1000, -1000⟩) =
      (⟨2000, 2000, 2000⟩ : Vec3) from by apply Vec3.ext <;> norm_num]
    unfold Vec3.length
    exact h1 _ (by norm_num)
  · split
    · -- inflated to a side-100 cube
      refine le_trans (h1 30000 (by norm_num)) (le_of_eq ?_)
      show Real.sqrt 30000 = Vec3.length _
      rw [show ∀ c : Vec3, (c + ⟨50, 50, 50⟩) - (c - ⟨50, 50, 50⟩) =
        (⟨100, 100, 100⟩ : Vec3) from fun c => by
          apply Vec3.ext <;> simp <;> ring]
      unfold Vec3.length
      norm_num
    · exact not_lt.mp (by assumption)

theorem buildOctreeRoot_not_small (bodies : List Body) :
    ¬ (buildOctreeRoot bodies).size < OCTREE_MIN_SIZE := by
  have := buildOctreeRoot_size_ge bodies
  unfold OCTREE_MIN_SIZE
  linarith

theorem buildOctreeRoot_depth (bodies : List Body) :
    (buildOctreeRoot bodies).depth = 0 := rfl

theorem buildOctreeRoot_totalMass (bodies : List Body) :
    (buildOctreeRoot bodies).totalMass = 0 := rfl

/-- C7: for every finite set of positive-mass bodies whose positions all
lie inside the root cube, after buildOctree inserts each body and
recomputes the aggregates, the root's totalMass is exactly the sum of the
inserted masses. -/
theorem buildOctree_totalMass (bodies : List Body)
    (hm : ∀ b ∈ bodies, 0 < b.mass)
    (hc : ∀ b ∈ bodies, (buildOctreeRoot bodies).contains b.position) :
    (buildOctree bodies).totalMass = (bodies.map Body.mass).sum := by
  have hwf0 : WF (buildOctreeRoot bodies) :=
    WF_new _ _ 0 (by unfold OCTREE_MAX_DEPTH; omega)
  obtain ⟨hfold, hwfT, hTc, hTs, hTd⟩ :=
    foldl_insert_mass bodies (buildOctreeRoot bodies) hwf0 hc hm
  rw [buildOctreeRoot_totalMass, zero_add] at hfold
  show ((bodies.foldl (fun t b => OctreeNode.insertBody INSERT_FUEL t b)
    (buildOctreeRoot bodies)).updateMassProperties).totalMass = _
  set T := bodies.foldl (fun t b => OctreeNode.insertBody INSERT_FUEL t b)
    (buildOctreeRoot bodies) with hT
  cases hTl : T.isLeaf with
  | false =>
    rw [updateMassProperties_internal_totalMass T hTl,
      ← (hwfT.node hTl).2.2.2.2.1, hfold]
  | true =>
    cases hTb : T.body with
    | none => rw [updateMassProperties_leaf_nobody T hTl hTb, hfold]
    | some b =>
      rw [updateMassProperties_leaf_body T b hTl hTb]
      have hnd : ¬ (OCTREE_MAX_DEPTH ≤ T.depth ∨
          T.size < OCTREE_MIN_SIZE) := by
        intro hor
        cases hor with
        | inl hle =>
          rw [hTd, buildOctreeRoot_depth] at hle
          unfold OCTREE_MAX_DEPTH at hle
          omega
        | inr hlt =>
          rw [hTs] at hlt
          exact buildOctreeRoot_not_small bodies hlt
      have := ((hwfT.occ b hTl hTb).2.2) hnd
      show b.mass = _
      rw [← this, hfold]

/-- Witness body for C7. -/
def cSevenBody : Body :=
  ⟨5, ⟨0, 0, 0⟩, Vec3.zero, Vec3.zero, ⟨1, 1, 1⟩, 5, 1, false, []⟩

theorem calculateBounds_cSeven :
    calculateBounds [cSevenBody] =
      (⟨-50, -50, -50⟩, ⟨50, 50, 50⟩) := by
  unfold calculateBounds
  rw [if_neg (by simp)]
  dsimp only [List.foldl_cons, List.foldl_nil]
  rw [show Vec3.vmin ⟨FLT_MAX, FLT_MAX, FLT_MAX⟩ cSevenBody.position =
      (⟨0, 0, 0⟩ : Vec3) from by
    unfold Vec3.vmin FLT_MAX cSevenBody
    apply Vec3.ext <;> norm_num]
  rw [show Vec3.vmax ⟨-FLT_MAX, -FLT_MAX, -FLT_MAX⟩ cSevenBody.position =
      (⟨0, 0, 0⟩ : Vec3) from by
    unfold Vec3.vmax FLT_MAX cSevenBody
    apply Vec3.ext <;> norm_num]
  rw [show ((⟨0, 0, 0⟩ : Vec3) - Vec3.smul 0.2
      ((⟨0, 0, 0⟩ : Vec3) - ⟨0, 0, 0⟩) + Vec3.smul 0.2
      ((⟨0, 0, 0⟩ : Vec3) - ⟨0, 0, 0⟩)) = (⟨0, 0, 0⟩ : Vec3) from by
    unfold Vec3.smul
    apply Vec3.ext <;> norm_num]
  rw [show ((⟨0, 0, 0⟩ : Vec3) - ⟨0, 0, 0⟩) = (⟨0, 0, 0⟩ : Vec3) from by
    apply Vec3.ext <;> norm_num]
  rw [if_pos (by
    show (⟨0, 0, 0⟩ : Vec3).length < 100
    unfold Vec3.length
    rw [show (0:ℝ) * 0 + 0 * 0 + 0 * 0 = 0 by ring, Real.sqrt_zero]
    norm_num)]
  rw [show Vec3.smul 0.5 ((⟨0, 0, 0⟩ : Vec3) + ⟨0, 0, 0⟩) =
      (⟨0, 0, 0⟩ : Vec3) from by
    unfold Vec3.smul
    apply Vec3.ext <;> norm_num]
  show ((⟨0, 0, 0⟩ : Vec3) - ⟨50, 50, 50⟩,
    (⟨0, 0, 0⟩ : Vec3) + ⟨50, 50, 50⟩) = _
  rw [show ((⟨0, 0, 0⟩ : Vec3) - ⟨50, 50, 50⟩) =
      (⟨-50, -50, -50⟩ : Vec3) from by apply Vec3.ext <;> norm_num,
    show ((⟨0, 0, 0⟩ : Vec3) + ⟨50, 50, 50⟩) =
      (⟨50, 50, 50⟩ : Vec3) from by apply Vec3.ext <;> norm_num]

theorem buildOctreeRoot_cSeven :
    buildOctreeRoot [cSevenBody] =
      OctreeNode.new ⟨0, 0, 0⟩ (Real.sqrt 30000) 0 := by
  unfold buildOctreeRoot
  rw [calculateBounds_cSeven]
  dsimp only
  rw [show Vec3.smul 0.5 ((⟨-50, -50, -50⟩ : Vec3) + ⟨50, 50, 50⟩) =
      (⟨0, 0, 0⟩ : Vec3) from by
    unfold Vec3.smul
    apply Vec3.ext <;> norm_num]
  rw [show ((⟨50, 50, 50⟩ : Vec3) - ⟨-50, -50, -50⟩) =
      (⟨100, 100, 100⟩ : Vec3) from by apply Vec3.ext <;> norm_num]
  unfold Vec3.length
  norm_num

/-- Witness for C7: a single positive-mass body at the origin. -/
theorem buildOctree_totalMass_witness :
    (∀ b ∈ [cSevenBody], 0 < b.mass) ∧
    (∀ b ∈ [cSevenBody],
      (buildOctreeRoot [cSevenBody]).contains b.position) ∧
    (buildOctree [cSevenBody]).totalMass =
      ([cSevenBody].map Body.mass).sum := by
  have hs : (0 : ℝ) < Real.sqrt 30000 :=
    Real.sqrt_pos.mpr (by norm_num)
  have hm : ∀ b ∈ [cSevenBody], 0 < b.mass := by
    intro b hb
    rw [List.mem_singleton] at hb
    subst hb
    show (0 : ℝ) < 5
    norm_num
  have hc : ∀ b ∈ [cSevenBody],
      (buildOctreeRoot [cSevenBody]).contains b.position := by
    intro b hb
    rw [List.mem_singleton] at hb
    subst hb
    rw [buildOctreeRoot_cSeven]
    show (0 : ℝ) - Real.sqrt 30000 * 0.5 ≤ 0 ∧
      (0 : ℝ) < 0 + Real.sqrt 30000 * 0.5 ∧
      (0 : ℝ) - Real.sqrt 30000 * 0.5 ≤ 0 ∧
      (0 : ℝ) < 0 + Real.sqrt 30000 * 0.5 ∧
      (0 : ℝ) - Real.sqrt 30000 * 0.5 ≤ 0 ∧
      (0 : ℝ) < 0 + Real.sqrt 30000 * 0.5
    refine ⟨by linarith, by linarith, by linarith, by linarith,
      by linarith, by linarith⟩
  exact ⟨hm, hc, buildOctree_totalMass [cSevenBody] hm hc⟩

end

end GravitySim

